import Mathlib

/-!
Voice-typing text injection: `examples/voice-typing/uinput-text-input.cpp`
and `examples/voice-typing/libei-text-input.cpp`.

A shallow embedding of the two text-injection backends of the voice-typing
program.  For the uinput backend (namespace `Uinput`): the two layout tables,
the UTF-8 decoder, the accent folder, the event writer, the device
initialisation and the typing loop.  For the libei backend (namespace
`Libei`): its two layout tables and its connection probe.  The properties
proved about them follow the definitions.

Conventions of the embedding.

* A `std::string` is a `List Byte` with `Byte = Fin 256`.
* A C `char` that holds an ASCII character and a `uint32_t` codepoint are
  natural numbers.  Every codepoint the decoder produces is below `2 ^ 21`
  (`decode_utf8_codepoint_lt`), so the conversion to `uint32_t` never wraps.
* The `int` arguments of `send_event` are natural numbers; they are reduced
  modulo `2 ^ 16` when stored into the 16-bit fields of `struct input_event`.
* The globals of each translation unit are fields of an explicit `State`,
  which also carries the trace of the system and library calls and of the
  `stderr` messages made so far.
* A message printed with `fprintf(stderr, ...)` is logged with what its
  conversions print: for `%s` applied to `s.c_str()`, the bytes of `s` before
  its first NUL byte (`c_str`).
* The results of the system and library calls are supplied by an `Env`,
  indexed by the number of earlier calls of the same kind.
* The key and event constants are those of `linux/input-event-codes.h`.
-/

namespace Uinput

/-! ## Constants of `linux/input-event-codes.h` -/

def EV_SYN : Nat := 0
def EV_KEY : Nat := 1
def SYN_REPORT : Nat := 0

def KEY_1 : Nat := 2
def KEY_2 : Nat := 3
def KEY_3 : Nat := 4
def KEY_4 : Nat := 5
def KEY_5 : Nat := 6
def KEY_6 : Nat := 7
def KEY_7 : Nat := 8
def KEY_8 : Nat := 9
def KEY_9 : Nat := 10
def KEY_0 : Nat := 11
def KEY_MINUS : Nat := 12
def KEY_EQUAL : Nat := 13
def KEY_TAB : Nat := 15
def KEY_Q : Nat := 16
def KEY_W : Nat := 17
def KEY_E : Nat := 18
def KEY_R : Nat := 19
def KEY_T : Nat := 20
def KEY_Y : Nat := 21
def KEY_U : Nat := 22
def KEY_I : Nat := 23
def KEY_O : Nat := 24
def KEY_P : Nat := 25
def KEY_LEFTBRACE : Nat := 26
def KEY_RIGHTBRACE : Nat := 27
def KEY_ENTER : Nat := 28
def KEY_A : Nat := 30
def KEY_S : Nat := 31
def KEY_D : Nat := 32
def KEY_F : Nat := 33
def KEY_G : Nat := 34
def KEY_H : Nat := 35
def KEY_J : Nat := 36
def KEY_K : Nat := 37
def KEY_L : Nat := 38
def KEY_SEMICOLON : Nat := 39
def KEY_APOSTROPHE : Nat := 40
def KEY_GRAVE : Nat := 41
def KEY_LEFTSHIFT : Nat := 42
def KEY_BACKSLASH : Nat := 43
def KEY_Z : Nat := 44
def KEY_X : Nat := 45
def KEY_C : Nat := 46
def KEY_V : Nat := 47
def KEY_B : Nat := 48
def KEY_N : Nat := 49
def KEY_M : Nat := 50
def KEY_COMMA : Nat := 51
def KEY_DOT : Nat := 52
def KEY_SLASH : Nat := 53
def KEY_RIGHTSHIFT : Nat := 54
def KEY_SPACE : Nat := 57

/-! ## Layout tables -/

/-- A `std::map<char, int>` built by successive `map[c] = k` assignments,
kept as the list of its entries in source order.  The keys of each table are
pairwise distinct (`keycode_map_keys_nodup`, `shifted_keycode_map_keys_nodup`),
so no assignment overwrites an earlier one and `find` is `List.lookup`. -/
abbrev CharMap := List (Nat × Nat)

/-- The entries of `create_keycode_map`, written with the source's character
literals. -/
def keycode_entries : List (Char × Nat) :=
  [ -- Top row
    ('q', KEY_Q), ('w', KEY_W), ('e', KEY_E), ('r', KEY_R), ('t', KEY_T),
    ('y', KEY_Y), ('u', KEY_U), ('i', KEY_I), ('o', KEY_O), ('p', KEY_P),
    -- Middle row
    ('a', KEY_A), ('s', KEY_S), ('d', KEY_D), ('f', KEY_F), ('g', KEY_G),
    ('h', KEY_H), ('j', KEY_J), ('k', KEY_K), ('l', KEY_L),
    -- Bottom row
    ('z', KEY_Z), ('x', KEY_X), ('c', KEY_C), ('v', KEY_V), ('b', KEY_B),
    ('n', KEY_N), ('m', KEY_M),
    -- Numbers
    ('1', KEY_1), ('2', KEY_2), ('3', KEY_3), ('4', KEY_4), ('5', KEY_5),
    ('6', KEY_6), ('7', KEY_7), ('8', KEY_8), ('9', KEY_9), ('0', KEY_0),
    -- Common punctuation (unshifted)
    (' ', KEY_SPACE), ('\n', KEY_ENTER), ('\t', KEY_TAB), ('-', KEY_MINUS),
    ('=', KEY_EQUAL), ('[', KEY_LEFTBRACE), (']', KEY_RIGHTBRACE),
    ('\\', KEY_BACKSLASH), (';', KEY_SEMICOLON), ('\'', KEY_APOSTROPHE),
    ('`', KEY_GRAVE), (',', KEY_COMMA), ('.', KEY_DOT), ('/', KEY_SLASH) ]

/-- The entries of `create_shifted_keycode_map`. -/
def shifted_keycode_entries : List (Char × Nat) :=
  [ -- Top row
    ('Q', KEY_Q), ('W', KEY_W), ('E', KEY_E), ('R', KEY_R), ('T', KEY_T),
    ('Y', KEY_Y), ('U', KEY_U), ('I', KEY_I), ('O', KEY_O), ('P', KEY_P),
    -- Middle row
    ('A', KEY_A), ('S', KEY_S), ('D', KEY_D), ('F', KEY_F), ('G', KEY_G),
    ('H', KEY_H), ('J', KEY_J), ('K', KEY_K), ('L', KEY_L),
    -- Bottom row
    ('Z', KEY_Z), ('X', KEY_X), ('C', KEY_C), ('V', KEY_V), ('B', KEY_B),
    ('N', KEY_N), ('M', KEY_M),
    -- Shifted punctuation
    ('!', KEY_1), ('@', KEY_2), ('#', KEY_3), ('$', KEY_4), ('%', KEY_5),
    ('^', KEY_6), ('&', KEY_7), ('*', KEY_8), ('(', KEY_9), (')', KEY_0),
    ('_', KEY_MINUS), ('+', KEY_EQUAL), ('{', KEY_LEFTBRACE),
    ('}', KEY_RIGHTBRACE), ('|', KEY_BACKSLASH), (':', KEY_SEMICOLON),
    ('"', KEY_APOSTROPHE), ('~', KEY_GRAVE), ('<', KEY_COMMA), ('>', KEY_DOT),
    ('?', KEY_SLASH) ]

/-- Source: `create_keycode_map` (the unshifted table), keyed by character
code. -/
def create_keycode_map : CharMap :=
  keycode_entries.map fun e => (e.1.toNat, e.2)

/-- Source: `create_shifted_keycode_map`, keyed by character code. -/
def create_shifted_keycode_map : CharMap :=
  shifted_keycode_entries.map fun e => (e.1.toNat, e.2)

def keycode_map : CharMap := create_keycode_map
def shifted_keycode_map : CharMap := create_shifted_keycode_map

/-! ## UTF-8 decoding -/

abbrev Byte := Fin 256

/-- The bytes that `%s` prints for `s.c_str()`: the bytes of `s` before its
first NUL byte. -/
def c_str (s : List Byte) : List Byte := s.takeWhile (· ≠ 0)

/-- The byte `text[i]` as an unsigned value; `0` past the end, where the code
never reads. -/
def byteAt (text : List Byte) (i : Nat) : Nat := (text.getD i 0).val

/-- Source: `decode_utf8`.  The result is `(codepoint, bytes consumed)`. -/
def decode_utf8 (text : List Byte) (pos : Nat) : Nat × Nat :=
  let c := byteAt text pos
  if c &&& 0x80 = 0 then
    (c, 1)
  else if c &&& 0xE0 = 0xC0 ∧ pos + 1 < text.length then
    (((c &&& 0x1F) <<< 6) ||| (byteAt text (pos + 1) &&& 0x3F), 2)
  else if c &&& 0xF0 = 0xE0 ∧ pos + 2 < text.length then
    (((c &&& 0x0F) <<< 12) ||| ((byteAt text (pos + 1) &&& 0x3F) <<< 6)
      ||| (byteAt text (pos + 2) &&& 0x3F), 3)
  else if c &&& 0xF8 = 0xF0 ∧ pos + 3 < text.length then
    (((c &&& 0x07) <<< 18) ||| ((byteAt text (pos + 1) &&& 0x3F) <<< 12)
      ||| ((byteAt text (pos + 2) &&& 0x3F) <<< 6)
      ||| (byteAt text (pos + 3) &&& 0x3F), 4)
  else
    (0, 1)

/-! ## Accent folding -/

/-- The table `accent_map` of `strip_accent_unicode`. -/
def accent_map : List (Nat × Char) :=
  [ -- Lowercase letters
    (0x00E0, 'a'), (0x00E1, 'a'), (0x00E2, 'a'), (0x00E3, 'a'), (0x00E4, 'a'), (0x00E5, 'a'),
    (0x00E8, 'e'), (0x00E9, 'e'), (0x00EA, 'e'), (0x00EB, 'e'),
    (0x00EC, 'i'), (0x00ED, 'i'), (0x00EE, 'i'), (0x00EF, 'i'),
    (0x00F2, 'o'), (0x00F3, 'o'), (0x00F4, 'o'), (0x00F5, 'o'), (0x00F6, 'o'), (0x00F8, 'o'),
    (0x00F9, 'u'), (0x00FA, 'u'), (0x00FB, 'u'), (0x00FC, 'u'),
    (0x00F1, 'n'),
    (0x00E7, 'c'),
    (0x00FF, 'y'), (0x00FD, 'y'),
    (0x00E6, 'a'),
    (0x0153, 'o'),
    -- Uppercase letters
    (0x00C0, 'A'), (0x00C1, 'A'), (0x00C2, 'A'), (0x00C3, 'A'), (0x00C4, 'A'), (0x00C5, 'A'),
    (0x00C8, 'E'), (0x00C9, 'E'), (0x00CA, 'E'), (0x00CB, 'E'),
    (0x00CC, 'I'), (0x00CD, 'I'), (0x00CE, 'I'), (0x00CF, 'I'),
    (0x00D2, 'O'), (0x00D3, 'O'), (0x00D4, 'O'), (0x00D5, 'O'), (0x00D6, 'O'), (0x00D8, 'O'),
    (0x00D9, 'U'), (0x00DA, 'U'), (0x00DB, 'U'), (0x00DC, 'U'),
    (0x00D1, 'N'),
    (0x00C7, 'C'),
    (0x00DD, 'Y'),
    (0x00C6, 'A'),
    (0x0152, 'O') ]

/-- Source: `strip_accent_unicode`.  Returns the character code of the ASCII
equivalent, or `0` when there is no mapping. -/
def strip_accent_unicode (codepoint : Nat) : Nat :=
  match accent_map.lookup codepoint with
  | some ch => ch.toNat
  | none => if codepoint < 128 then codepoint else 0

/-! ## System-call trace and environment -/

/-- The record `struct input_event` as far as the code fills it: the fields
`type` and `code` are 16-bit, `value` is a signed 32-bit integer. -/
structure input_event where
  type : Nat
  code : Nat
  value : Int
  deriving DecidableEq, Repr

/-- The `ioctl` requests the code issues. -/
inductive Request where
  | UI_SET_EVBIT
  | UI_SET_KEYBIT
  | UI_DEV_SETUP
  | UI_DEV_CREATE
  | UI_DEV_DESTROY
  deriving DecidableEq, Repr

/-- What `uinput_type_text` and `init_uinput` print on `stderr`, one message
for the consecutive `fprintf` statements of a branch.  A byte payload is what
the `%s` conversion prints: the bytes of the string up to its first NUL byte
(`c_str`). -/
inductive Message where
  | open_failed
  | set_ev_key_failed
  | set_ev_syn_failed
  | setup_failed
  | create_failed
  | created
  | not_available (text : List Byte)
  | typing_text (text : List Byte)
  | cannot_type (utf8_char : List Byte) (codepoint : Nat)
  | typing_complete
  deriving DecidableEq, Repr

/-- One observable action of the program, with the result it received. -/
inductive Call where
  | open_ (ret : Int)
  | ioctl (fd : Int) (request : Request) (arg : Nat) (ret : Int)
  | close (fd : Int)
  | write (fd : Int) (ev : input_event) (ok : Bool)
  | usleep (usec : Nat)
  | fprintf (msg : Message)
  deriving DecidableEq, Repr

/-- The outcomes of the system calls: the result of the `n`-th `open`, of the
`n`-th `ioctl`, and whether the `n`-th `write` transfers the whole record
(each counted from 0, in program order). -/
structure Env where
  open_ret : Nat → Int
  ioctl_ret : Nat → Int
  write_ok : Nat → Bool

/-- The globals of the translation unit and the trace of calls so far. -/
structure State where
  g_uinput_fd : Int
  g_uinput_initialized : Bool
  trace : List Call
  deriving DecidableEq, Repr

/-- The state at program start: `g_uinput_fd = -1`,
`g_uinput_initialized = false`. -/
def State.init : State := ⟨-1, false, []⟩

def Call.isOpen : Call → Bool
  | .open_ _ => true
  | _ => false

def Call.isIoctl : Call → Bool
  | .ioctl _ _ _ _ => true
  | _ => false

def Call.isWrite : Call → Bool
  | .write _ _ _ => true
  | _ => false

/-- Number of `write` calls attempted so far. -/
def nwrites (t : List Call) : Nat := (t.filter Call.isWrite).length

/-- Number of `ioctl` calls made so far. -/
def nioctls (t : List Call) : Nat := (t.filter Call.isIoctl).length

/-- Number of `open` calls made so far. -/
def nopens (t : List Call) : Nat := (t.filter Call.isOpen).length

/-- The records that reached the device: the events of the successful
writes, in order. -/
def written (t : List Call) : List input_event :=
  t.filterMap fun
    | .write _ ev true => some ev
    | _ => none

/-- The records the program tried to write, successful or not, in order. -/
def attempted (t : List Call) : List input_event :=
  t.filterMap fun
    | .write _ ev _ => some ev
    | _ => none

def State.log (s : State) (c : Call) : State := { s with trace := s.trace ++ [c] }

/-- The call `ioctl(g_uinput_fd, request, arg)` and its result. -/
def ioctl (env : Env) (request : Request) (arg : Nat) (s : State) : Int × State :=
  let ret := env.ioctl_ret (nioctls s.trace)
  (ret, s.log (.ioctl s.g_uinput_fd request arg ret))

/-- The statement `fprintf(stderr, ...)`. -/
def fprintf (msg : Message) (s : State) : State := s.log (.fprintf msg)

/-! ## Writing events -/

/-- Source: `send_event`.  The `int` arguments `type` and `code` are stored
into 16-bit fields. -/
def send_event (env : Env) (type code : Nat) (value : Int) (s : State) : Bool × State :=
  let ev : input_event := ⟨type % 65536, code % 65536, value⟩
  let ok := env.write_ok (nwrites s.trace)
  (ok, s.log (.write s.g_uinput_fd ev ok))

/-- Source: `send_key_event`. -/
def send_key_event (env : Env) (keycode : Nat) (press : Bool) (s : State) : Bool × State :=
  send_event env EV_KEY keycode (if press then 1 else 0) s

/-- Source: `send_sync`. -/
def send_sync (env : Env) (s : State) : Bool × State :=
  send_event env EV_SYN SYN_REPORT 0 s

/-- The statement `if (!f()) return false;` followed by the rest `k` of the
function body. -/
def orReturnFalse (r : Bool × State) (k : State → Bool × State) : Bool × State :=
  if r.1 then k r.2 else (false, r.2)

/-- Source: `type_key`. -/
def type_key (env : Env) (keycode : Nat) (shift_needed : Bool) (s : State) : Bool × State :=
  orReturnFalse
    (if shift_needed then
      orReturnFalse (send_key_event env KEY_LEFTSHIFT true s) fun s =>
      orReturnFalse (send_sync env s) fun s => (true, s)
    else (true, s)) fun s =>
  -- Press key
  orReturnFalse (send_key_event env keycode true s) fun s =>
  orReturnFalse (send_sync env s) fun s =>
  -- Release key
  orReturnFalse (send_key_event env keycode false s) fun s =>
  orReturnFalse (send_sync env s) fun s =>
  if shift_needed then
    orReturnFalse (send_key_event env KEY_LEFTSHIFT false s) fun s =>
    orReturnFalse (send_sync env s) fun s => (true, s)
  else (true, s)

/-! ## Device initialisation -/

/-- The arguments of the `UI_SET_KEYBIT` calls of `init_uinput`, in source
order.  The result of these calls is not inspected. -/
def enabled_keys : List Nat :=
  [ -- Top row
    KEY_Q, KEY_W, KEY_E, KEY_R, KEY_T, KEY_Y, KEY_U, KEY_I, KEY_O, KEY_P,
    -- Middle row
    KEY_A, KEY_S, KEY_D, KEY_F, KEY_G, KEY_H, KEY_J, KEY_K, KEY_L,
    -- Bottom row
    KEY_Z, KEY_X, KEY_C, KEY_V, KEY_B, KEY_N, KEY_M,
    -- Numbers
    KEY_1, KEY_2, KEY_3, KEY_4, KEY_5, KEY_6, KEY_7, KEY_8, KEY_9, KEY_0,
    -- Special keys
    KEY_SPACE, KEY_ENTER, KEY_TAB, KEY_LEFTSHIFT, KEY_RIGHTSHIFT,
    -- Punctuation
    KEY_MINUS, KEY_EQUAL, KEY_LEFTBRACE, KEY_RIGHTBRACE, KEY_SEMICOLON,
    KEY_APOSTROPHE, KEY_GRAVE, KEY_BACKSLASH, KEY_COMMA, KEY_DOT, KEY_SLASH ]

/-- The statements `fprintf(stderr, msg); close(g_uinput_fd);
g_uinput_fd = -1; return false;` shared by the failure branches of
`init_uinput` after a successful `open`. -/
def init_fail (msg : Message) (s : State) : Bool × State :=
  let s := fprintf msg s
  let s := s.log (.close s.g_uinput_fd)
  (false, { s with g_uinput_fd := -1 })

/-- Source: `init_uinput`. -/
def init_uinput (env : Env) (s : State) : Bool × State :=
  if s.g_uinput_initialized then
    (decide (s.g_uinput_fd ≥ 0), s)
  else
    let s := { s with g_uinput_initialized := true }
    -- Try to open uinput device
    let fd := env.open_ret (nopens s.trace)
    let s := { s.log (.open_ fd) with g_uinput_fd := fd }
    if s.g_uinput_fd < 0 then
      (false, fprintf .open_failed s)
    else
      -- Enable key events
      let (r, s) := ioctl env .UI_SET_EVBIT EV_KEY s
      if r < 0 then init_fail .set_ev_key_failed s else
      let (r, s) := ioctl env .UI_SET_EVBIT EV_SYN s
      if r < 0 then init_fail .set_ev_syn_failed s else
      -- Enable all keys we might need
      let s := enabled_keys.foldl (fun s k => (ioctl env .UI_SET_KEYBIT k s).2) s
      -- Create the device
      let (r, s) := ioctl env .UI_DEV_SETUP 0 s
      if r < 0 then init_fail .setup_failed s else
      let (r, s) := ioctl env .UI_DEV_CREATE 0 s
      if r < 0 then init_fail .create_failed s else
      -- Give the system time to recognize the device
      let s := s.log (.usleep 100000)
      (true, fprintf .created s)

/-- Source: `uinput_available`. -/
def uinput_available (env : Env) (s : State) : Bool × State := init_uinput env s

/-! ## Typing text -/

/-- Source: `text.substr(i, bytes)`. -/
def substr (text : List Byte) (i bytes : Nat) : List Byte := (text.drop i).take bytes

/-- One iteration of the `for` loop of `uinput_type_text` at offset `i`: the
new offset and state. -/
def type_step (env : Env) (text : List Byte) (i : Nat) (s : State) : Nat × State :=
  let (codepoint, bytes) := decode_utf8 text i
  -- Try to find ASCII equivalent (handles accents and plain ASCII)
  let ascii_char := strip_accent_unicode codepoint
  let (sent, s) :=
    if ascii_char ≠ 0 then
      match keycode_map.lookup ascii_char with
      | some keycode => type_key env keycode false s
      | none =>
        match shifted_keycode_map.lookup ascii_char with
        | some keycode => type_key env keycode true s
        | none => (false, s)
    else (false, s)
  let s :=
    if !sent ∧ codepoint ≠ 0 then
      fprintf (.cannot_type (c_str (substr text i bytes)) codepoint) s
    else s
  (i + bytes, s)

/-- The loop `for (size_t i = 0; i < text.size(); ) { ...; i += bytes; }` of
`uinput_type_text`, started at offset `i`, with a bound `fuel` on the number
of iterations; `none` when the bound is reached before the loop ends. -/
def type_loop (env : Env) (text : List Byte) : Nat → Nat → State → Option State
  | fuel, i, s =>
    if i < text.length then
      match fuel with
      | 0 => none
      | fuel + 1 =>
        let (i, s) := type_step env text i s
        type_loop env text fuel i s
    else some s

/-- Source: `uinput_type_text`.  The loop is given `text.length` iterations,
which it never exhausts (`type_loop_isSome`), since every iteration advances
by at least one byte. -/
def uinput_type_text (env : Env) (text : List Byte) (s : State) : Option (Bool × State) :=
  let (available, s) := uinput_available env s
  if !available then
    let s := fprintf (.not_available (c_str text)) s
    some (false, s)
  else
    let s := fprintf (.typing_text (c_str text)) s
    -- Type each character (decode UTF-8 properly)
    match type_loop env text text.length 0 s with
    | none => none
    | some s =>
      let s := fprintf .typing_complete s
      some (true, s)

/-- Source: `cleanup_uinput`. -/
def cleanup_uinput (env : Env) (s : State) : State :=
  if s.g_uinput_fd ≥ 0 then
    let s := (ioctl env .UI_DEV_DESTROY 0 s).2
    let s := s.log (.close s.g_uinput_fd)
    { s with g_uinput_fd := -1 }
  else s

end Uinput

/-! ## Event sequences of the specification -/

namespace Uinput

/-- The key-press record `(EV_KEY, k, 1)`. -/
def key_down (k : Nat) : input_event := ⟨EV_KEY, k, 1⟩

/-- The key-release record `(EV_KEY, k, 0)`. -/
def key_up (k : Nat) : input_event := ⟨EV_KEY, k, 0⟩

/-- The sync record `(EV_SYN, SYN_REPORT, 0)`. -/
def sync_report : input_event := ⟨EV_SYN, SYN_REPORT, 0⟩

def shift_down : input_event := key_down KEY_LEFTSHIFT
def shift_up : input_event := key_up KEY_LEFTSHIFT

/-- The pattern `key-down, sync, key-up, sync`. -/
def unshifted_sequence (k : Nat) : List input_event :=
  [key_down k, sync_report, key_up k, sync_report]

/-- The pattern `shift-down, sync, key-down, sync, key-up, sync, shift-up,
sync`. -/
def shifted_sequence (k : Nat) : List input_event :=
  [shift_down, sync_report, key_down k, sync_report, key_up k, sync_report,
   shift_up, sync_report]

def key_sequence (k : Nat) (shift : Bool) : List input_event :=
  if shift then shifted_sequence k else unshifted_sequence k

/-- The records written between state `s` and a later state `t` of the same
run. -/
def written_by (s t : State) : List input_event :=
  (written t.trace).drop (written s.trace).length

/-- Layout resolution as `uinput_type_text` performs it: the unshifted table
first, the shifted table second.  The result is `(key code, shift flag)`. -/
def resolve (c : Nat) : Option (Nat × Bool) :=
  match keycode_map.lookup c with
  | some k => some (k, false)
  | none =>
    match shifted_keycode_map.lookup c with
    | some k => some (k, true)
    | none => none

/-- The codepoints obtained by applying `decode_utf8` repeatedly, starting at
offset `pos`, each time advancing by the reported byte count (at most `fuel`
codepoints). -/
def codepoints_from (text : List Byte) : Nat → Nat → List Nat
  | 0, _ => []
  | fuel + 1, pos =>
    if pos < text.length then
      (decode_utf8 text pos).1 ::
        codepoints_from text fuel (pos + (decode_utf8 text pos).2)
    else []

/-- The codepoints of `text`, decoded from offset 0.  A text of `n` bytes has
at most `n` codepoints. -/
def codepoints (text : List Byte) : List Nat := codepoints_from text text.length 0

/-- The records the specification assigns to one codepoint: the unshifted
sequence if its folded character is in the unshifted table, else the shifted
sequence if it is in the shifted table, else nothing. -/
def codepoint_events (codepoint : Nat) : List input_event :=
  match keycode_map.lookup (strip_accent_unicode codepoint) with
  | some k => unshifted_sequence k
  | none =>
    match shifted_keycode_map.lookup (strip_accent_unicode codepoint) with
    | some k => shifted_sequence k
    | none => []

/-! ## Auxiliary description of a run of guarded writes -/

/-- The record as stored in the 16-bit fields of `struct input_event`. -/
def input_event.stored (ev : input_event) : input_event :=
  ⟨ev.type % 65536, ev.code % 65536, ev.value⟩

/-- Writing the records `evs` one after the other, each guarded by
`if (!send_event(...)) return false;`. -/
def send_all (env : Env) : List input_event → State → Bool × State
  | [], s => (true, s)
  | ev :: rest, s =>
    orReturnFalse (send_event env ev.type ev.code ev.value s) (send_all env rest)

/-- The `write` calls made by `send_all`: one per record, up to and including
the first one that fails; `n` is the number of writes made before. -/
def write_calls (env : Env) (fd : Int) : Nat → List input_event → List Call
  | _, [] => []
  | n, ev :: rest =>
    .write fd ev.stored (env.write_ok n) ::
      (if env.write_ok n then write_calls env fd (n + 1) rest else [])

/-- The number of successful writes before the first failure among the writes
number `n`, `n + 1`, ..., `n + len - 1`. -/
def ok_run (env : Env) : Nat → Nat → Nat
  | _, 0 => 0
  | n, len + 1 => if env.write_ok n then ok_run env (n + 1) len + 1 else 0

end Uinput

/-! ## Definitions used to state the properties -/

namespace Uinput

/-- A shift-up record is written after the key-up record of key `k`: the
stream `w` holds `key_up k` at some position and `shift_up` at a later one. -/
def shift_closed (k : Nat) (w : List input_event) : Prop :=
  ∃ i j : Nat, i < j ∧ w[i]? = some (key_up k) ∧ w[j]? = some shift_up

/-- An environment in which `open` returns descriptor 3 and every `ioctl` and
every `write` succeeds. -/
def env_all_ok : Env := ⟨fun _ => 3, fun _ => 0, fun _ => true⟩

/-- As `env_all_ok`, except that the second write fails. -/
def env_second_write_fails : Env := ⟨fun _ => 3, fun _ => 0, fun n => decide (n ≠ 1)⟩

/-- As `env_all_ok`, except that the first write fails. -/
def env_first_write_fails : Env := ⟨fun _ => 3, fun _ => 0, fun n => decide (n ≠ 0)⟩

/-- A state in which the device has been created on descriptor 3. -/
def state_ready : State := ⟨3, true, []⟩

/-- The shift-punctuation set of the specification. -/
def shift_punctuation : List Char :=
  ['!', '@', '#', '$', '%', '^', '&', '*', '(', ')', '_', '+', '{', '}', '|', ':', '"', '~',
   '<', '>', '?']

/-- Space, tab, newline and the unshifted punctuation of the specification. -/
def unshifted_punctuation : List Char :=
  [' ', '\t', '\n', '-', '=', '[', ']', '\\', ';', '\'', '`', ',', '.', '/']

/-- The key-to-character inverse: the character of the first entry with key
code `k` in the shifted table when `shift` holds, in the unshifted table
otherwise. -/
def unresolve (k : Nat) (shift : Bool) : Option Nat :=
  ((if shift then shifted_keycode_map else keycode_map).find? fun e => e.2 == k).map Prod.fst

/-- The lowercase letters the specification documents, each with the ASCII
letter it folds to. -/
def documented_folds : List (Nat × Char) :=
  [ (0xE0, 'a'), (0xE1, 'a'), (0xE2, 'a'), (0xE3, 'a'), (0xE4, 'a'), (0xE5, 'a'),
    (0xE8, 'e'), (0xE9, 'e'), (0xEA, 'e'), (0xEB, 'e'),
    (0xEC, 'i'), (0xED, 'i'), (0xEE, 'i'), (0xEF, 'i'),
    (0xF2, 'o'), (0xF3, 'o'), (0xF4, 'o'), (0xF5, 'o'), (0xF6, 'o'), (0xF8, 'o'),
    (0xF9, 'u'), (0xFA, 'u'), (0xFB, 'u'), (0xFC, 'u'),
    (0xF1, 'n'), (0xE7, 'c'), (0xFF, 'y'), (0xFD, 'y'), (0xE6, 'a'), (0x153, 'o') ]

/-- The Unicode simple uppercase mapping on the documented letters: U+0178
for U+00FF, U+0152 for U+0153, and the letter `0x20` below for the other
Latin-1 letters. -/
def unicode_upper (cp : Nat) : Nat :=
  if cp = 0xFF then 0x178 else if cp = 0x153 then 0x152 else cp - 0x20

/-- The standard UTF-8 encoding of a code point below `0x110000` (RFC 3629):
one byte `0xxxxxxx` below `0x80`, two bytes `110xxxxx 10xxxxxx` below `0x800`,
three bytes `1110xxxx 10xxxxxx 10xxxxxx` below `0x10000`, and four bytes
`11110xxx 10xxxxxx 10xxxxxx 10xxxxxx` above, the payload bits taken from the
most significant to the least significant. -/
def utf8_encode (cp : Nat) : List Byte :=
  if cp < 0x80 then
    [Fin.ofNat cp]
  else if cp < 0x800 then
    [Fin.ofNat (0xC0 + cp / 64), Fin.ofNat (0x80 + cp % 64)]
  else if cp < 0x10000 then
    [Fin.ofNat (0xE0 + cp / 4096), Fin.ofNat (0x80 + cp / 64 % 64), Fin.ofNat (0x80 + cp % 64)]
  else
    [Fin.ofNat (0xF0 + cp / 262144), Fin.ofNat (0x80 + cp / 4096 % 64),
     Fin.ofNat (0x80 + cp / 64 % 64), Fin.ofNat (0x80 + cp % 64)]

/-- The records `uinput_type_text` tries to write for the codepoints `cps`
when `n` writes have been made before: for each codepoint in turn, the records
of its key sequence up to and including the first one whose write fails, and
then the same for the codepoints after it. -/
def attempts_from (env : Env) : List Nat → Nat → List input_event
  | [], _ => []
  | cp :: rest, n =>
    (codepoint_events cp).take (ok_run env n (codepoint_events cp).length + 1) ++
      attempts_from env rest
        (n + ((codepoint_events cp).take (ok_run env n (codepoint_events cp).length + 1)).length)

/-- The `write` calls of a run that makes `m` successful writes of the
records `evs` and then, if a record is left, one failed write of the next
record. -/
def writes_upto (fd : Int) (evs : List input_event) (m : Nat) : List Call :=
  (evs.take m).map (fun ev => Call.write fd ev true) ++
    match evs[m]? with
    | some ev => [Call.write fd ev false]
    | none => []

/-- The calls `ioctl(fd, UI_SET_KEYBIT, k)` for the keys `ks` in order, when
`n` `ioctl` calls have been made before. -/
def keybit_calls (env : Env) (fd : Int) : Nat → List Nat → List Call
  | _, [] => []
  | n, k :: ks => .ioctl fd .UI_SET_KEYBIT k (env.ioctl_ret n) :: keybit_calls env fd (n + 1) ks

/-- The calls `init_uinput` makes after a successful `open` up to and
including `UI_DEV_SETUP`, when `n` `ioctl` calls have been made before and
both event-bit calls succeed. -/
def declare_calls (env : Env) (fd : Int) (n : Nat) : List Call :=
  [ .open_ fd,
    .ioctl fd .UI_SET_EVBIT EV_KEY (env.ioctl_ret n),
    .ioctl fd .UI_SET_EVBIT EV_SYN (env.ioctl_ret (n + 1)) ] ++
  keybit_calls env fd (n + 2) enabled_keys ++
  [ .ioctl fd .UI_DEV_SETUP 0 (env.ioctl_ret (n + 54)) ]

/-- As `env_all_ok`, except that the first `UI_SET_KEYBIT` call (the third
`ioctl`, for `KEY_Q`) fails. -/
def env_keybit_fails : Env := ⟨fun _ => 3, fun n => if n = 2 then -1 else 0, fun _ => true⟩

/-- As `env_all_ok`, except that the `UI_SET_EVBIT` call for `EV_KEY` (the
first `ioctl`) fails. -/
def env_evbit_fails : Env := ⟨fun _ => 3, fun n => if n = 0 then -1 else 0, fun _ => true⟩

/-- The state `s` after the further calls `extra`, the globals being as in
`s`. -/
def State.later (s : State) (extra : List Call) : State :=
  ⟨s.g_uinput_fd, s.g_uinput_initialized, s.trace ++ extra⟩

/-- The calls made between state `s` and a later state `t` of the same run. -/
def calls_since (s t : State) : List Call := t.trace.drop s.trace.length

/-- Source: `decode_utf8`, with the indices at which it evaluates `text[...]`
recorded next to the result, in evaluation order.  The first component is
`decode_utf8` itself (`decode_utf8_traced_fst`). -/
def decode_utf8_traced (text : List Byte) (pos : Nat) : (Nat × Nat) × List Nat :=
  let c := byteAt text pos
  if c &&& 0x80 = 0 then
    ((c, 1), [pos])
  else if c &&& 0xE0 = 0xC0 ∧ pos + 1 < text.length then
    ((((c &&& 0x1F) <<< 6) ||| (byteAt text (pos + 1) &&& 0x3F), 2), [pos, pos + 1])
  else if c &&& 0xF0 = 0xE0 ∧ pos + 2 < text.length then
    ((((c &&& 0x0F) <<< 12) ||| ((byteAt text (pos + 1) &&& 0x3F) <<< 6)
      ||| (byteAt text (pos + 2) &&& 0x3F), 3), [pos, pos + 1, pos + 2])
  else if c &&& 0xF8 = 0xF0 ∧ pos + 3 < text.length then
    ((((c &&& 0x07) <<< 18) ||| ((byteAt text (pos + 1) &&& 0x3F) <<< 12)
      ||| ((byteAt text (pos + 2) &&& 0x3F) <<< 6)
      ||| (byteAt text (pos + 3) &&& 0x3F), 4), [pos, pos + 1, pos + 2, pos + 3])
  else
    ((0, 1), [pos])

/-- The indices of `text` that `decode_utf8(text, pos)` reads. -/
def decode_utf8_reads (text : List Byte) (pos : Nat) : List Nat :=
  (decode_utf8_traced text pos).2

/-- The offsets at which the loop of `uinput_type_text` calls `decode_utf8`,
from offset `pos` on (at most `fuel` of them). -/
def offsets_from (text : List Byte) : Nat → Nat → List Nat
  | 0, _ => []
  | fuel + 1, pos =>
    if pos < text.length then
      pos :: offsets_from text fuel (pos + (decode_utf8 text pos).2)
    else []

/-- The offsets at which `uinput_type_text(text)` calls `decode_utf8`. -/
def offsets (text : List Byte) : List Nat := offsets_from text text.length 0

/-- The warnings `Cannot type '%s' (U+%04X)` among the calls `t`: the bytes
printed for the character and the codepoint of each, in order. -/
def warnings (t : List Call) : List (List Byte × Nat) :=
  t.filterMap fun
    | .fprintf (.cannot_type utf8_char codepoint) => some (utf8_char, codepoint)
    | _ => none

/-- The one-byte text holding the NUL character. -/
def text_nul : List Byte := [0x00]

/-- The one-byte text holding a stray continuation byte. -/
def text_stray : List Byte := [0x80]

/-- The bytes of the UTF-8 text "a€" (the second character is U+20AC,
encoded as `E2 82 AC`). -/
def text_a_euro : List Byte := [0x61, 0xE2, 0x82, 0xAC]

/-- As `env_all_ok`, except that `open` fails. -/
def env_open_fails : Env := ⟨fun _ => -1, fun _ => 0, fun _ => true⟩

/-- A three-byte text whose lead byte `E2` is followed by a NUL byte and by
`A`: `decode_utf8` takes the three bytes as one sequence, of codepoint
U+2001. -/
def text_nul_inside : List Byte := [0xE2, 0x00, 0x41]

/-- The bytes of the text "hi". -/
def text_hi : List Byte := [0x68, 0x69]

/-- The bytes of the text "Hi!". -/
def text_Hi_bang : List Byte := [0x48, 0x69, 0x21]

/-- The bytes of the UTF-8 text "café" (the last letter is U+00E9, encoded as
`C3 A9`). -/
def text_cafe_accented : List Byte := [0x63, 0x61, 0x66, 0xC3, 0xA9]

/-- The bytes of the text "cafe". -/
def text_cafe : List Byte := [0x63, 0x61, 0x66, 0x65]

/-- The bytes of the text "ab". -/
def text_ab : List Byte := [0x61, 0x62]

end Uinput

/-! ## The libei backend (`examples/voice-typing/libei-text-input.cpp`) -/

namespace Libei

open Uinput

/-! ### Layout tables -/

/-- Source: `create_keycode_map` of the libei backend.  The loop
`for (char c = 'a'; c <= 'z'; c++)` runs `c` over `'a' + j` for
`j = 0, ..., 'z' - 'a'`, and likewise for the digits; the other entries are
written with the source's character literals. -/
def create_keycode_map : CharMap :=
  -- Letters (lowercase, will handle shift separately)
  ((List.range ('z'.toNat + 1 - 'a'.toNat)).map fun j =>
    let c := 'a'.toNat + j
    (c, KEY_A + (c - 'a'.toNat))) ++
  -- Numbers
  ((List.range ('9'.toNat + 1 - '0'.toNat)).map fun j =>
    let c := '0'.toNat + j
    (c, KEY_0 + (c - '0'.toNat))) ++
  -- Common punctuation (unshifted versions)
  ([ (' ', KEY_SPACE), ('\n', KEY_ENTER), ('\t', KEY_TAB), ('-', KEY_MINUS),
     ('=', KEY_EQUAL), ('[', KEY_LEFTBRACE), (']', KEY_RIGHTBRACE),
     ('\\', KEY_BACKSLASH), (';', KEY_SEMICOLON), ('\'', KEY_APOSTROPHE),
     ('`', KEY_GRAVE), (',', KEY_COMMA), ('.', KEY_DOT), ('/', KEY_SLASH) ].map
    fun e : Char × Nat => (e.1.toNat, e.2))

/-- Source: `create_shifted_keycode_map` of the libei backend. -/
def create_shifted_keycode_map : CharMap :=
  -- Uppercase letters
  ((List.range ('Z'.toNat + 1 - 'A'.toNat)).map fun j =>
    let c := 'A'.toNat + j
    (c, KEY_A + (c - 'A'.toNat))) ++
  -- Shifted punctuation
  ([ ('!', KEY_1), ('@', KEY_2), ('#', KEY_3), ('$', KEY_4), ('%', KEY_5),
     ('^', KEY_6), ('&', KEY_7), ('*', KEY_8), ('(', KEY_9), (')', KEY_0),
     ('_', KEY_MINUS), ('+', KEY_EQUAL), ('{', KEY_LEFTBRACE),
     ('}', KEY_RIGHTBRACE), ('|', KEY_BACKSLASH), (':', KEY_SEMICOLON),
     ('"', KEY_APOSTROPHE), ('~', KEY_GRAVE), ('<', KEY_COMMA), ('>', KEY_DOT),
     ('?', KEY_SLASH) ].map
    fun e : Char × Nat => (e.1.toNat, e.2))

def keycode_map : CharMap := create_keycode_map
def shifted_keycode_map : CharMap := create_shifted_keycode_map

/-- Resolution of a character through the tables of the libei backend, in
the order of the kernel backend: the unshifted table first (shift flag
clear), the shifted table second (shift flag set).  The libei backend itself
never looks a character up: its `send_key` is a stub. -/
def resolve (c : Nat) : Option (Nat × Bool) :=
  match keycode_map.lookup c with
  | some k => some (k, false)
  | none =>
    match shifted_keycode_map.lookup c with
    | some k => some (k, true)
    | none => none

/-! ### Connection state -/

/-- What the libei backend prints on `stderr`.  A byte payload is what the
`%s` conversion prints (`Uinput.c_str`). -/
inductive Message where
  | runtime_dir_not_set
  | socket_not_found (socket_path : String)
  | make_sure_running
  | create_failed
  | connect_failed (socket_path : String)
  | connected
  | not_available
  | not_implemented
  | transcribed_text (text : List Byte)
  deriving DecidableEq, Repr

/-- One observable action of the libei backend, with the result it received.
A pointer is a natural number, `0` being `nullptr`. -/
inductive Call where
  | getenv (ret : Option String)
  | access (socket_path : String) (ret : Int)
  | ei_new_sender (ret : Nat)
  | ei_setup_backend_socket (ctx : Nat) (socket_path : String) (ret : Int)
  | ei_unref (ctx : Nat)
  | usleep (usec : Nat)
  | fprintf (msg : Message)
  deriving DecidableEq, Repr

/-- The outcomes of the four steps of the probe: the value of
`XDG_RUNTIME_DIR` (`none` when unset), the result of `access`, the pointer
returned by `ei_new_sender` and the result of `ei_setup_backend_socket`, each
for the `n`-th call of its kind (counted from 0). -/
structure Env where
  getenv_ret : Nat → Option String
  access_ret : Nat → Int
  ei_new_sender_ret : Nat → Nat
  ei_setup_backend_socket_ret : Nat → Int

/-- The globals of the translation unit and the trace of calls so far. -/
structure State where
  g_ei_context : Nat
  g_keyboard_device : Nat
  g_libei_initialized : Bool
  trace : List Call
  deriving DecidableEq, Repr

/-- The state at program start: both pointers `nullptr`,
`g_libei_initialized = false`. -/
def State.init : State := ⟨0, 0, false, []⟩

def State.log (s : State) (c : Call) : State := { s with trace := s.trace ++ [c] }

def fprintf (msg : Message) (s : State) : State := s.log (.fprintf msg)

/-- Number of calls in `t` that satisfy `p`. -/
def count (p : Call → Bool) (t : List Call) : Nat := (t.filter p).length

def Call.isGetenv : Call → Bool
  | .getenv _ => true
  | _ => false

def Call.isAccess : Call → Bool
  | .access _ _ => true
  | _ => false

def Call.isNewSender : Call → Bool
  | .ei_new_sender _ => true
  | _ => false

def Call.isSetupSocket : Call → Bool
  | .ei_setup_backend_socket _ _ _ => true
  | _ => false

/-- The calls of a trace that try to acquire the session: everything but
`usleep` and `fprintf`. -/
def Call.isAttempt : Call → Bool
  | .usleep _ => false
  | .fprintf _ => false
  | _ => true

/-- The statement `snprintf(socket_path, sizeof(socket_path),
"%s/gnome-remote-desktop/eis-0", runtime_dir)` with a buffer of 512 bytes
(the directory name is taken to be ASCII, one byte per character). -/
def socket_path (runtime_dir : String) : String :=
  (runtime_dir ++ "/gnome-remote-desktop/eis-0").take 511

/-- Source: `libei_available`. -/
def libei_available (env : Env) (s : State) : Bool × State :=
  if s.g_libei_initialized then
    (decide (s.g_ei_context ≠ 0) && decide (s.g_keyboard_device ≠ 0), s)
  else
    let s := { s with g_libei_initialized := true }
    -- Try to connect to the EIS server via socket
    let runtime_dir := env.getenv_ret (count Call.isGetenv s.trace)
    let s := s.log (.getenv runtime_dir)
    match runtime_dir with
    | none => (false, fprintf .runtime_dir_not_set s)
    | some dir =>
      -- Try connecting to GNOME Remote Desktop EIS socket
      let path := socket_path dir
      -- Check if socket exists
      let r := env.access_ret (count Call.isAccess s.trace)
      let s := s.log (.access path r)
      if r ≠ 0 then
        (false, fprintf .make_sure_running (fprintf (.socket_not_found path) s))
      else
        -- Create libei context
        let ctx := env.ei_new_sender_ret (count Call.isNewSender s.trace)
        let s : State := { s.log (.ei_new_sender ctx) with g_ei_context := ctx }
        if s.g_ei_context = 0 then
          (false, fprintf .create_failed s)
        else
          -- Connect to the socket
          let r := env.ei_setup_backend_socket_ret (count Call.isSetupSocket s.trace)
          let s := s.log (.ei_setup_backend_socket s.g_ei_context path r)
          if r ≠ 0 then
            let s := fprintf (.connect_failed path) s
            let s := s.log (.ei_unref s.g_ei_context)
            (false, { s with g_ei_context := 0 })
          else
            -- Give libei time to establish connection
            let s := s.log (.usleep 50000)
            (true, fprintf .connected s)

/-- Source: `send_key` of the libei backend. -/
def send_key (_keycode : Nat) (_shift_needed : Bool) : Bool := false

/-- Source: `libei_type_text`. -/
def libei_type_text (env : Env) (text : List Byte) (s : State) : Bool × State :=
  let (available, s) := libei_available env s
  if !available then
    let s := fprintf .not_available s
    (false, fprintf (.transcribed_text (c_str text)) s)
  else
    let s := fprintf .not_implemented s
    let s := fprintf (.transcribed_text (c_str text)) s
    -- Clean up
    let s :=
      if s.g_ei_context ≠ 0 then
        { s.log (.ei_unref s.g_ei_context) with g_ei_context := 0 }
      else s
    (false, s)

/-- An environment in which every step of the probe succeeds:
`XDG_RUNTIME_DIR` is `/run/user/1000`, the socket exists, `ei_new_sender`
returns a non-null pointer and the socket is attached. -/
def env_all_ok : Env := ⟨fun _ => some "/run/user/1000", fun _ => 0, fun _ => 1, fun _ => 0⟩

/-- An environment in which `XDG_RUNTIME_DIR` is not set. -/
def env_no_runtime_dir : Env := ⟨fun _ => none, fun _ => 0, fun _ => 1, fun _ => 0⟩

end Libei

/-! # Theorems -/

namespace Uinput

/-! ## Guarded writes -/

theorem orReturnFalse_true (s : State) (k : State → Bool × State) :
    orReturnFalse (true, s) k = k s := rfl

theorem orReturnFalse_assoc (r : Bool × State) (f g : State → Bool × State) :
    orReturnFalse (orReturnFalse r f) g = orReturnFalse r fun s => orReturnFalse (f s) g := by
  unfold orReturnFalse
  cases h : r.1 <;> simp

theorem orReturnFalse_pure (r : Bool × State) :
    orReturnFalse r (fun s => (true, s)) = r := by
  unfold orReturnFalse
  rcases r with ⟨b, s⟩
  cases b <;> rfl

theorem nwrites_append (t u : List Call) : nwrites (t ++ u) = nwrites t + nwrites u := by
  simp [nwrites]

theorem written_append (t u : List Call) : written (t ++ u) = written t ++ written u := by
  simp [written]

theorem attempted_append (t u : List Call) : attempted (t ++ u) = attempted t ++ attempted u := by
  simp [attempted]

theorem nwrites_write (fd : Int) (ev : input_event) (ok : Bool) :
    nwrites [Call.write fd ev ok] = 1 := rfl

theorem type_key_eq_send_all (env : Env) (k : Nat) (shift : Bool) (s : State) :
    type_key env k shift s = send_all env (key_sequence k shift) s := by
  cases shift <;>
    simp [type_key, key_sequence, shifted_sequence, unshifted_sequence, send_all,
      orReturnFalse_assoc, orReturnFalse_true, orReturnFalse_pure, send_key_event, send_sync,
      key_down, key_up, sync_report, shift_down, shift_up]

theorem send_all_eq (env : Env) (evs : List input_event) (s : State) :
    send_all env evs s =
      (decide (ok_run env (nwrites s.trace) evs.length = evs.length),
       { s with trace := s.trace ++ write_calls env s.g_uinput_fd (nwrites s.trace) evs }) := by
  induction evs generalizing s with
  | nil => simp [send_all, write_calls, ok_run]
  | cons ev rest ih =>
    cases h : env.write_ok (nwrites s.trace) with
    | false =>
      simp [send_all, write_calls, ok_run, orReturnFalse, send_event, h, State.log,
        input_event.stored]
    | true =>
      simp [send_all, write_calls, ok_run, orReturnFalse, send_event, h, State.log,
        input_event.stored, ih, nwrites_append, nwrites_write]

theorem written_write_calls (env : Env) (fd : Int) (n : Nat) (evs : List input_event) :
    written (write_calls env fd n evs) = (evs.map input_event.stored).take (ok_run env n evs.length) := by
  induction evs generalizing n with
  | nil => simp [write_calls, written]
  | cons ev rest ih =>
    cases h : env.write_ok n with
    | false => simp [write_calls, ok_run, h, written]
    | true =>
      have := ih (n + 1)
      simp only [written] at this
      simp [write_calls, ok_run, h, written, this]

theorem attempted_write_calls (env : Env) (fd : Int) (n : Nat) (evs : List input_event) :
    attempted (write_calls env fd n evs) =
      (evs.map input_event.stored).take (ok_run env n evs.length + 1) := by
  induction evs generalizing n with
  | nil => simp [write_calls, attempted]
  | cons ev rest ih =>
    cases h : env.write_ok n with
    | false => simp [write_calls, ok_run, h, attempted]
    | true =>
      have := ih (n + 1)
      simp only [attempted] at this
      simp [write_calls, ok_run, h, attempted, this]

theorem ok_run_le (env : Env) (n len : Nat) : ok_run env n len ≤ len := by
  induction len generalizing n with
  | zero => simp [ok_run]
  | succ len ih =>
    simp only [ok_run]
    split
    · have := ih (n + 1); omega
    · omega

theorem le_ok_run_iff (env : Env) (n len m : Nat) :
    m ≤ ok_run env n len ↔ m ≤ len ∧ ∀ j, j < m → env.write_ok (n + j) = true := by
  induction len generalizing n m with
  | zero =>
    simp only [ok_run, Nat.le_zero]
    constructor
    · rintro rfl; simp
    · rintro ⟨h, -⟩; exact h
  | succ len ih =>
    simp only [ok_run]
    cases m with
    | zero => simp
    | succ m =>
      cases h : env.write_ok n with
      | false =>
        simp only [Bool.false_eq_true, if_false, Nat.le_zero, Nat.add_one_ne_zero, false_iff,
          not_and, not_forall]
        intro _
        exact ⟨0, by omega, by simpa using h⟩
      | true =>
        simp only [if_true, Nat.add_le_add_iff_right, ih]
        constructor
        · rintro ⟨h1, h2⟩
          refine ⟨h1, fun j hj => ?_⟩
          cases j with
          | zero => simpa using h
          | succ j =>
            have := h2 j (by omega)
            rw [show n + (j + 1) = n + 1 + j by omega]; exact this
        · rintro ⟨h1, h2⟩
          refine ⟨h1, fun j hj => ?_⟩
          have := h2 (j + 1) (by omega)
          rw [show n + (j + 1) = n + 1 + j by omega] at this; exact this

theorem ok_run_eq_of_all (env : Env) (n len : Nat) (hw : ∀ j, env.write_ok j = true) :
    ok_run env n len = len := by
  have := (le_ok_run_iff env n len len).2 ⟨le_refl _, fun j _ => hw _⟩
  have := ok_run_le env n len
  omega

theorem map_stored_key_sequence (k : Nat) (shift : Bool) (hk : k < 65536) :
    (key_sequence k shift).map input_event.stored = key_sequence k shift := by
  cases shift <;>
    simp [key_sequence, shifted_sequence, unshifted_sequence, input_event.stored, key_down,
      key_up, sync_report, shift_down, shift_up, EV_KEY, EV_SYN, SYN_REPORT, KEY_LEFTSHIFT,
      Nat.mod_eq_of_lt hk]

theorem written_by_type_key (env : Env) (k : Nat) (shift : Bool) (s : State) (hk : k < 65536) :
    written_by s (type_key env k shift s).2 =
      (key_sequence k shift).take (ok_run env (nwrites s.trace) (key_sequence k shift).length) := by
  rw [type_key_eq_send_all, send_all_eq]
  simp [written_by, written_append, written_write_calls, map_stored_key_sequence k shift hk]

theorem not_shift_closed_take (k m : Nat) (hm : m ≤ 6) :
    ¬ shift_closed k ((shifted_sequence k).take m) := by
  rintro ⟨i, j, hij, hi, hj⟩
  have hj' : j < m := by
    by_contra hcon
    rw [List.getElem?_eq_none (by simp; omega)] at hj
    cases hj
  have hjm : j < 6 := by omega
  interval_cases m <;> interval_cases j <;> interval_cases i <;>
    simp [shifted_sequence, key_up, key_down, shift_up, shift_down, sync_report, EV_KEY, EV_SYN,
      SYN_REPORT, KEY_LEFTSHIFT] at hi hj

theorem shift_closed_take (k m : Nat) (hm : 7 ≤ m) :
    shift_closed k ((shifted_sequence k).take m) := by
  refine ⟨4, 6, by omega, ?_, ?_⟩ <;>
    simp [shifted_sequence, List.getElem?_take, hm, show 4 < m by omega, show 6 < m by omega]

theorem type_key_shift_closed_iff (env : Env) (k : Nat) (s : State) (hk : k < 65536) :
    shift_closed k (written_by s (type_key env k true s).2) ↔
      ∀ n, n < 7 → env.write_ok (nwrites s.trace + n) = true := by
  rw [written_by_type_key env k true s hk]
  have h7 := le_ok_run_iff env (nwrites s.trace) 8 7
  simp only [key_sequence, if_true, show (shifted_sequence k).length = 8 from rfl]
  constructor
  · intro h
    by_contra hcon
    have : ¬ 7 ≤ ok_run env (nwrites s.trace) 8 := fun h' => hcon (h7.1 h').2
    exact not_shift_closed_take k _ (by omega) h
  · intro h
    exact shift_closed_take k _ (h7.2 ⟨by omega, h⟩)


/-! ## The typing loop -/

theorem written_log_of_not_write (s : State) (c : Call) (h : c.isWrite = false) :
    written (s.log c).trace = written s.trace := by
  cases c <;> simp_all [State.log, written, Call.isWrite]

theorem written_fprintf (msg : Message) (s : State) :
    written (fprintf msg s).trace = written s.trace :=
  written_log_of_not_write s _ rfl

theorem written_ioctl (env : Env) (r : Request) (a : Nat) (s : State) :
    written (ioctl env r a s).2.trace = written s.trace :=
  written_log_of_not_write s _ rfl

theorem written_foldl_ioctl (env : Env) (ks : List Nat) (s : State) :
    written (ks.foldl (fun s k => (ioctl env .UI_SET_KEYBIT k s).2) s).trace = written s.trace := by
  induction ks generalizing s with
  | nil => rfl
  | cons k ks ih => simp only [List.foldl_cons, ih, written_ioctl]

theorem written_init_fail (msg : Message) (s : State) :
    written (init_fail msg s).2.trace = written s.trace := by
  simp [init_fail, written_log_of_not_write, Call.isWrite, written_fprintf]

/-- The function `init_uinput` writes no event record. -/
theorem written_init_uinput (env : Env) (s : State) :
    written (init_uinput env s).2.trace = written s.trace := by
  unfold init_uinput
  split
  · rfl
  · simp only []
    split
    · simp [written_fprintf, written_log_of_not_write, Call.isWrite]
    · split
      · simp [written_init_fail, written_ioctl, written_log_of_not_write, Call.isWrite]
      · split
        · simp [written_init_fail, written_ioctl, written_log_of_not_write, Call.isWrite]
        · split
          · simp [written_init_fail, written_ioctl, written_log_of_not_write, Call.isWrite,
              written_foldl_ioctl]
          · split
            · simp [written_init_fail, written_ioctl, written_log_of_not_write, Call.isWrite,
                written_foldl_ioctl]
            · simp [written_init_fail, written_ioctl, written_log_of_not_write, Call.isWrite,
                written_foldl_ioctl, written_fprintf]


theorem type_key_all_ok (env : Env) (k : Nat) (shift : Bool) (s : State)
    (hk : k < 65536) (hw : ∀ n, env.write_ok n = true) :
    type_key env k shift s =
      (true, { s with trace := s.trace ++
        (key_sequence k shift).map fun ev => Call.write s.g_uinput_fd ev true }) := by
  cases shift <;>
    simp [type_key, orReturnFalse, send_key_event, send_sync, send_event, hw, State.log,
      Nat.mod_eq_of_lt hk, EV_KEY, EV_SYN, SYN_REPORT, KEY_LEFTSHIFT, key_sequence,
      shifted_sequence, unshifted_sequence, key_down, key_up, sync_report, shift_down, shift_up]

theorem written_map_write (fd : Int) (evs : List input_event) :
    written (evs.map fun ev => Call.write fd ev true) = evs := by
  induction evs with
  | nil => rfl
  | cons ev evs ih =>
    simp only [written] at ih
    simp [written, ih]

theorem decode_utf8_bytes_pos (text : List Byte) (pos : Nat) : 1 ≤ (decode_utf8 text pos).2 := by
  unfold decode_utf8
  simp only []
  split_ifs <;> simp

theorem mem_of_lookup_eq_some {α β : Type} [BEq α] [LawfulBEq α] (l : List (α × β)) (a : α) (b : β)
    (h : l.lookup a = some b) : (a, b) ∈ l := by
  induction l with
  | nil => simp at h
  | cons e l ih =>
    rcases e with ⟨x, y⟩
    by_cases hx : a = x
    · subst hx
      simp at h
      simp [h]
    · have : (a == x) = false := by simpa using hx
      simp only [List.lookup, this] at h
      exact List.mem_cons_of_mem _ (ih h)

theorem keycode_map_lt (c k : Nat) (h : keycode_map.lookup c = some k) : k < 65536 := by
  have hall : ∀ e ∈ keycode_map, e.2 < 65536 := by decide
  exact hall _ (mem_of_lookup_eq_some _ _ _ h)

theorem shifted_keycode_map_lt (c k : Nat) (h : shifted_keycode_map.lookup c = some k) :
    k < 65536 := by
  have hall : ∀ e ∈ shifted_keycode_map, e.2 < 65536 := by decide
  exact hall _ (mem_of_lookup_eq_some _ _ _ h)

theorem type_step_fst (env : Env) (text : List Byte) (i : Nat) (s : State) :
    (type_step env text i s).1 = i + (decode_utf8 text i).2 := rfl

/-- When every write succeeds, one loop iteration writes exactly the records
of the decoded codepoint. -/
theorem written_type_step (env : Env) (text : List Byte) (i : Nat) (s : State)
    (hw : ∀ n, env.write_ok n = true) :
    written (type_step env text i s).2.trace =
      written s.trace ++ codepoint_events (decode_utf8 text i).1 := by
  unfold type_step codepoint_events
  simp only []
  by_cases h0 : strip_accent_unicode (decode_utf8 text i).1 = 0
  · have h1 : keycode_map.lookup 0 = none := by decide
    have h2 : shifted_keycode_map.lookup 0 = none := by decide
    simp only [h0, h1, h2, ne_eq, not_true_eq_false, if_false]
    split_ifs <;> simp [written_fprintf]
  · simp only [ne_eq, h0, not_false_eq_true, if_true]
    cases hk : keycode_map.lookup (strip_accent_unicode (decode_utf8 text i).1) with
    | some k =>
      simp only [type_key_all_ok env k false s (keycode_map_lt _ _ hk) hw]
      simp [written_append, written_map_write, key_sequence]
    | none =>
      cases hs : shifted_keycode_map.lookup (strip_accent_unicode (decode_utf8 text i).1) with
      | some k =>
        simp only [type_key_all_ok env k true s (shifted_keycode_map_lt _ _ hs) hw]
        simp [written_append, written_map_write, key_sequence]
      | none =>
        simp only []
        split_ifs <;> simp [written_fprintf]

/-- The typing loop ends within `text.length - i` iterations and, when every
write succeeds, writes the records of the codepoints decoded from offset
`i`. -/
theorem type_loop_written (env : Env) (text : List Byte) (hw : ∀ n, env.write_ok n = true)
    (fuel i : Nat) (s : State) (hfuel : text.length - i ≤ fuel) :
    ∃ t, type_loop env text fuel i s = some t ∧
      written t.trace =
        written s.trace ++ (codepoints_from text fuel i).flatMap codepoint_events := by
  induction fuel generalizing i s with
  | zero =>
    have hi : ¬ i < text.length := by omega
    exact ⟨s, by simp [type_loop, hi], by simp [codepoints_from]⟩
  | succ fuel ih =>
    by_cases hi : i < text.length
    · have hb := decode_utf8_bytes_pos text i
      obtain ⟨t, ht, hwr⟩ := ih (i + (decode_utf8 text i).2) (type_step env text i s).2
        (by omega)
      refine ⟨t, ?_, ?_⟩
      · rw [type_loop]
        simp only [hi, if_true]
        rw [← ht]
        rfl
      · rw [hwr, written_type_step env text i s hw]
        simp [codepoints_from, hi]
    · exact ⟨s, by rw [type_loop]; simp [hi], by simp [codepoints_from, hi]⟩


theorem uinput_type_text_all_ok (env : Env) (s : State) (text : List Byte)
    (havail : (uinput_available env s).1 = true) (hw : ∀ n, env.write_ok n = true) :
    ∃ t, uinput_type_text env text s = some (true, t) ∧
      written t.trace = written s.trace ++ (codepoints text).flatMap codepoint_events := by
  obtain ⟨t, ht, hwr⟩ := type_loop_written env text hw text.length 0
    (fprintf (.typing_text (c_str text)) (uinput_available env s).2) (by omega)
  refine ⟨fprintf .typing_complete t, ?_, ?_⟩
  · unfold uinput_type_text
    simp only [havail, Bool.not_true, Bool.false_eq_true, if_false, ht]
  · rw [written_fprintf, hwr, written_fprintf]
    simp only [uinput_available, written_init_uinput, codepoints]

/-- Claim C1.  When the backend is available and every write succeeds,
`uinput_type_text(text)` returns `true` and the records it writes are, in
input order, those of the codepoints decoded from offset 0: the unshifted
sequence of the key if the folded character is in the unshifted table, else
the shifted sequence if it is in the shifted table, else nothing.  "hi" gives
the 8 records of `h` then `i`; "Hi!" gives 8 + 4 + 8 = 20 records with `!`
typed as shift + `KEY_1`; "café" gives the same stream as "cafe". -/
theorem uinput_type_text_event_stream (env : Env) (s : State)
    (havail : (uinput_available env s).1 = true) (hw : ∀ n, env.write_ok n = true) :
    (∀ text, ∃ t, uinput_type_text env text s = some (true, t) ∧
      written t.trace = written s.trace ++ (codepoints text).flatMap codepoint_events) ∧
    (∃ t, uinput_type_text env text_hi s = some (true, t) ∧
      written t.trace = written s.trace ++
        [ ⟨EV_KEY, KEY_H, 1⟩, ⟨EV_SYN, SYN_REPORT, 0⟩, ⟨EV_KEY, KEY_H, 0⟩, ⟨EV_SYN, SYN_REPORT, 0⟩,
          ⟨EV_KEY, KEY_I, 1⟩, ⟨EV_SYN, SYN_REPORT, 0⟩, ⟨EV_KEY, KEY_I, 0⟩, ⟨EV_SYN, SYN_REPORT, 0⟩ ]) ∧
    (∃ t, uinput_type_text env text_Hi_bang s = some (true, t) ∧
      written t.trace = written s.trace ++
        (shifted_sequence KEY_H ++ unshifted_sequence KEY_I ++ shifted_sequence KEY_1) ∧
      (shifted_sequence KEY_H ++ unshifted_sequence KEY_I ++ shifted_sequence KEY_1).length
        = 20) ∧
    (∃ t u, uinput_type_text env text_cafe_accented s = some (true, t) ∧
      uinput_type_text env text_cafe s = some (true, u) ∧
      written t.trace = written u.trace) := by
  refine ⟨fun text => uinput_type_text_all_ok env s text havail hw, ?_, ?_, ?_⟩
  · obtain ⟨t, ht, hwr⟩ := uinput_type_text_all_ok env s text_hi havail hw
    exact ⟨t, ht, by rw [hwr]; congr 1⟩
  · obtain ⟨t, ht, hwr⟩ := uinput_type_text_all_ok env s text_Hi_bang havail hw
    exact ⟨t, ht, by rw [hwr]; congr 1, rfl⟩
  · obtain ⟨t, ht, hwr⟩ := uinput_type_text_all_ok env s text_cafe_accented havail hw
    obtain ⟨u, hu, hwu⟩ := uinput_type_text_all_ok env s text_cafe havail hw
    exact ⟨t, u, ht, hu, by rw [hwr, hwu]; congr 1⟩

theorem uinput_type_text_event_stream_witness :
    (uinput_available env_all_ok State.init).1 = true ∧
    (∀ n, env_all_ok.write_ok n = true) ∧
    ∃ t, uinput_type_text env_all_ok text_Hi_bang State.init = some (true, t) ∧
      written t.trace =
        shifted_sequence KEY_H ++ unshifted_sequence KEY_I ++ shifted_sequence KEY_1 :=
  ⟨by decide, fun _ => rfl,
    let ⟨t, ht, hwr, _⟩ :=
      (uinput_type_text_event_stream env_all_ok State.init (by decide) (fun _ => rfl)).2.2.1
    ⟨t, ht, by rw [hwr]; rfl⟩⟩


/-! ## `type_key` -/

/-- Claim C2.  For every key code `k` (a 16-bit value, as the `code` field of the
record is), when every write succeeds, `type_key(k, true)` returns `true` and
makes exactly eight writes: shift-down, sync, key-down, sync, key-up, sync,
shift-up, sync, in that order; `type_key(k, false)` returns `true` and makes
exactly the four writes key-down, sync, key-up, sync.  The globals are left as
they were. -/
theorem type_key_writes_exact_records (env : Env) (k : Nat) (s : State)
    (hk : k < 65536) (hw : ∀ n, env.write_ok n = true) :
    type_key env k true s =
        (true, { s with trace := s.trace ++
          [ Call.write s.g_uinput_fd ⟨EV_KEY, KEY_LEFTSHIFT, 1⟩ true,
            Call.write s.g_uinput_fd ⟨EV_SYN, SYN_REPORT, 0⟩ true,
            Call.write s.g_uinput_fd ⟨EV_KEY, k, 1⟩ true,
            Call.write s.g_uinput_fd ⟨EV_SYN, SYN_REPORT, 0⟩ true,
            Call.write s.g_uinput_fd ⟨EV_KEY, k, 0⟩ true,
            Call.write s.g_uinput_fd ⟨EV_SYN, SYN_REPORT, 0⟩ true,
            Call.write s.g_uinput_fd ⟨EV_KEY, KEY_LEFTSHIFT, 0⟩ true,
            Call.write s.g_uinput_fd ⟨EV_SYN, SYN_REPORT, 0⟩ true ] }) ∧
      type_key env k false s =
        (true, { s with trace := s.trace ++
          [ Call.write s.g_uinput_fd ⟨EV_KEY, k, 1⟩ true,
            Call.write s.g_uinput_fd ⟨EV_SYN, SYN_REPORT, 0⟩ true,
            Call.write s.g_uinput_fd ⟨EV_KEY, k, 0⟩ true,
            Call.write s.g_uinput_fd ⟨EV_SYN, SYN_REPORT, 0⟩ true ] }) := by
  constructor
  · rw [type_key_all_ok env k true s hk hw]; rfl
  · rw [type_key_all_ok env k false s hk hw]; rfl


theorem type_key_writes_exact_records_witness :
    KEY_A < 65536 ∧ (∀ n, env_all_ok.write_ok n = true) ∧
      type_key env_all_ok KEY_A true state_ready =
        (true, { state_ready with trace :=
          [ Call.write 3 ⟨1, 42, 1⟩ true, Call.write 3 ⟨0, 0, 0⟩ true,
            Call.write 3 ⟨1, 30, 1⟩ true, Call.write 3 ⟨0, 0, 0⟩ true,
            Call.write 3 ⟨1, 30, 0⟩ true, Call.write 3 ⟨0, 0, 0⟩ true,
            Call.write 3 ⟨1, 42, 0⟩ true, Call.write 3 ⟨0, 0, 0⟩ true ] }) ∧
      type_key env_all_ok KEY_A false state_ready =
        (true, { state_ready with trace :=
          [ Call.write 3 ⟨1, 30, 1⟩ true, Call.write 3 ⟨0, 0, 0⟩ true,
            Call.write 3 ⟨1, 30, 0⟩ true, Call.write 3 ⟨0, 0, 0⟩ true ] }) :=
  ⟨by decide, fun _ => rfl,
    type_key_writes_exact_records env_all_ok KEY_A state_ready (by decide) (fun _ => rfl)⟩

/-- Claim C10 as stated fails.  With key `KEY_A`, when the sync after the
shift-down cannot be written, `type_key(KEY_A, true)` returns `false` having
written the shift-down record only: shift stays pressed. -/
theorem type_key_leaves_shift_pressed :
    (type_key env_second_write_fails KEY_A true state_ready).1 = false ∧
    written_by state_ready (type_key env_second_write_fails KEY_A true state_ready).2
      = [shift_down] ∧
    shift_down ∈
      written_by state_ready (type_key env_second_write_fails KEY_A true state_ready).2 ∧
    ¬ shift_closed KEY_A
      (written_by state_ready (type_key env_second_write_fails KEY_A true state_ready).2) := by
  refine ⟨by decide, by decide, by decide, ?_⟩
  rw [type_key_shift_closed_iff _ _ _ (by decide)]
  intro h
  exact absurd (h 1 (by decide)) (by decide)

theorem shift_down_mem_iff (env : Env) (k : Nat) (s : State) (hk : k < 65536) :
    shift_down ∈ written_by s (type_key env k true s).2 ↔
      env.write_ok (nwrites s.trace) = true := by
  rw [written_by_type_key env k true s hk]
  simp only [key_sequence, if_true, show (shifted_sequence k).length = 8 from rfl]
  have h1 := le_ok_run_iff env (nwrites s.trace) 8 1
  constructor
  · intro h
    by_contra hcon
    have h0 : ok_run env (nwrites s.trace) 8 = 0 := by
      have : ¬ 1 ≤ ok_run env (nwrites s.trace) 8 := fun h' => hcon (by simpa using (h1.1 h').2 0)
      omega
    rw [h0] at h
    simp at h
  · intro h
    have : 1 ≤ ok_run env (nwrites s.trace) 8 :=
      h1.2 ⟨by omega, fun j hj => by
        have : j = 0 := by omega
        subst this; simpa using h⟩
    obtain ⟨m, hm⟩ : ∃ m, ok_run env (nwrites s.trace) 8 = m + 1 := ⟨_, (Nat.sub_add_cancel this).symm⟩
    rw [hm]
    simp [shifted_sequence]

/-- With shift, `type_key` returns `false` exactly when one of its eight
writes fails. -/
theorem type_key_shift_false_iff (env : Env) (k : Nat) (s : State) :
    (type_key env k true s).1 = false ↔
      ∃ n, n < 8 ∧ env.write_ok (nwrites s.trace + n) = false := by
  rw [type_key_eq_send_all, send_all_eq]
  simp only [key_sequence, if_true, show (shifted_sequence k).length = 8 from rfl,
    decide_eq_false_iff_not]
  have hle := ok_run_le env (nwrites s.trace) 8
  have h8 := le_ok_run_iff env (nwrites s.trace) 8 8
  constructor
  · intro h
    by_contra hcon
    apply h
    have : 8 ≤ ok_run env (nwrites s.trace) 8 := h8.2 ⟨le_refl _, fun j hj => by
      by_contra hj2
      exact hcon ⟨j, hj, by simpa using hj2⟩⟩
    omega
  · rintro ⟨n, hn, hf⟩ h
    have := (h8.1 (by omega)).2 n hn
    rw [hf] at this
    cases this

/-- Claim C10, amended.  For every key code `k` and every pattern of write
outcomes, `type_key(k, true)` writes the shift-down record exactly when its
first write succeeds, and it writes a shift-up record after the key-up record
exactly when its first seven writes (shift-down, sync, key-down, sync, key-up,
sync, shift-up) all succeed.  So the shift-up is omitted whenever one of
these seven writes fails; and `type_key` returns `false` exactly when one of
its eight writes fails. -/
theorem type_key_shift_bracket (env : Env) (k : Nat) (s : State) (hk : k < 65536) :
    (shift_down ∈ written_by s (type_key env k true s).2 ↔
      env.write_ok (nwrites s.trace) = true) ∧
    (shift_closed k (written_by s (type_key env k true s).2) ↔
      ∀ n, n < 7 → env.write_ok (nwrites s.trace + n) = true) ∧
    ((type_key env k true s).1 = false ↔
      ∃ n, n < 8 ∧ env.write_ok (nwrites s.trace + n) = false) :=
  ⟨shift_down_mem_iff env k s hk, type_key_shift_closed_iff env k s hk,
    type_key_shift_false_iff env k s⟩

theorem type_key_shift_bracket_witness :
    KEY_A < 65536 ∧
    (shift_down ∈ written_by state_ready (type_key env_all_ok KEY_A true state_ready).2 ↔
      env_all_ok.write_ok (nwrites state_ready.trace) = true) ∧
    (shift_closed KEY_A (written_by state_ready (type_key env_all_ok KEY_A true state_ready).2) ↔
      ∀ n, n < 7 → env_all_ok.write_ok (nwrites state_ready.trace + n) = true) ∧
    ((type_key env_all_ok KEY_A true state_ready).1 = false ↔
      ∃ n, n < 8 ∧ env_all_ok.write_ok (nwrites state_ready.trace + n) = false) :=
  ⟨by decide, type_key_shift_bracket env_all_ok KEY_A state_ready (by decide)⟩

/-- Claim C9 fails on the code.  Starting from program start with a device
that can be created, when the very first write (the key-down of `a`) fails,
`uinput_type_text("ab")` still returns `true`, and it goes on to write the
four records of the later character `b`. -/
theorem uinput_type_text_continues_after_failed_write :
    ∃ t, uinput_type_text env_first_write_fails text_ab State.init = some (true, t) ∧
      attempted t.trace =
        [key_down KEY_A, key_down KEY_B, sync_report, key_up KEY_B, sync_report] ∧
      written t.trace = [key_down KEY_B, sync_report, key_up KEY_B, sync_report] :=
  ⟨((uinput_type_text env_first_write_fails text_ab State.init).getD (false, State.init)).2,
    by decide, by decide, by decide⟩



/-! ## The decoder -/

set_option maxRecDepth 100000 in
theorem lead_byte_masks : ∀ c : Nat, c < 256 →
    ((c &&& 0x80 = 0 ↔ c < 0x80) ∧ (c &&& 0xE0 = 0xC0 ↔ 0xC0 ≤ c ∧ c ≤ 0xDF) ∧
      (c &&& 0xF0 = 0xE0 ↔ 0xE0 ≤ c ∧ c ≤ 0xEF) ∧ (c &&& 0xF8 = 0xF0 ↔ 0xF0 ≤ c ∧ c ≤ 0xF7)) := by
  decide

set_option maxRecDepth 100000 in
theorem payload_masks : ∀ c : Nat, c < 256 →
    (c &&& 0x3F = c % 64 ∧ c &&& 0x1F = c % 32 ∧ c &&& 0x0F = c % 16 ∧ c &&& 0x07 = c % 8) := by
  decide

theorem byteAt_lt (text : List Byte) (i : Nat) : byteAt text i < 256 := (text.getD i 0).isLt

theorem lor_eq_add (i a b : Nat) (hb : b < 2 ^ i) (ha : 2 ^ i ∣ a) : a ||| b = a + b := by
  obtain ⟨a, rfl⟩ := ha
  exact (Nat.mul_add_lt_is_or hb a).symm

/-- Claim C3.  At an offset inside the text, if the byte is not a valid lead
byte (it is in `0x80..0xBF` or in `0xF8..0xFF`), or if it is a 2-, 3- or
4-byte lead byte with fewer than 1, 2 or 3 bytes remaining after it, then
`decode_utf8` reports codepoint 0 and consumes exactly 1 byte. -/
theorem decode_utf8_malformed (text : List Byte) (pos : Nat) (_hpos : pos < text.length)
    (h : (0x80 ≤ byteAt text pos ∧ byteAt text pos ≤ 0xBF) ∨ 0xF8 ≤ byteAt text pos ∨
      (0xC0 ≤ byteAt text pos ∧ byteAt text pos ≤ 0xDF ∧ text.length - (pos + 1) < 1) ∨
      (0xE0 ≤ byteAt text pos ∧ byteAt text pos ≤ 0xEF ∧ text.length - (pos + 1) < 2) ∨
      (0xF0 ≤ byteAt text pos ∧ byteAt text pos ≤ 0xF7 ∧ text.length - (pos + 1) < 3)) :
    decode_utf8 text pos = (0, 1) := by
  obtain ⟨h1, h2, h3, h4⟩ := lead_byte_masks _ (byteAt_lt text pos)
  unfold decode_utf8
  simp only [h1, h2, h3, h4]
  split_ifs <;> first | rfl | omega

theorem decode_utf8_malformed_witness :
    0 < [(0xC3 : Byte)].length ∧
    (0xC0 ≤ byteAt [0xC3] 0 ∧ byteAt [0xC3] 0 ≤ 0xDF ∧ [(0xC3 : Byte)].length - (0 + 1) < 1) ∧
    decode_utf8 [0xC3] 0 = (0, 1) :=
  ⟨by decide, by decide,
    decode_utf8_malformed [0xC3] 0 (by decide) (Or.inr (Or.inr (Or.inl (by decide))))⟩

theorem combine2 (a b : Nat) (hb : b < 64) : (a <<< 6) ||| b = a * 64 + b := by
  rw [Nat.shiftLeft_eq, lor_eq_add 6 _ _ (by simpa using hb) ⟨a, Nat.mul_comm _ _⟩]
  norm_num

theorem combine3 (a b c : Nat) (hb : b < 64) (hc : c < 64) :
    (a <<< 12) ||| (b <<< 6) ||| c = a * 4096 + b * 64 + c := by
  rw [Nat.shiftLeft_eq, Nat.shiftLeft_eq,
    lor_eq_add 12 (a * 2 ^ 12) (b * 2 ^ 6) (by norm_num; omega) ⟨a, Nat.mul_comm _ _⟩,
    lor_eq_add 6 (a * 2 ^ 12 + b * 2 ^ 6) c (by simpa using hc) ⟨a * 64 + b, by ring⟩]
  norm_num

theorem combine4 (a b c d : Nat) (hb : b < 64) (hc : c < 64) (hd : d < 64) :
    (a <<< 18) ||| (b <<< 12) ||| (c <<< 6) ||| d =
      a * 262144 + b * 4096 + c * 64 + d := by
  rw [Nat.shiftLeft_eq, Nat.shiftLeft_eq, Nat.shiftLeft_eq,
    lor_eq_add 18 (a * 2 ^ 18) (b * 2 ^ 12) (by norm_num; omega) ⟨a, Nat.mul_comm _ _⟩,
    lor_eq_add 12 (a * 2 ^ 18 + b * 2 ^ 12) (c * 2 ^ 6) (by norm_num; omega)
      ⟨a * 64 + b, by ring⟩,
    lor_eq_add 6 (a * 2 ^ 18 + b * 2 ^ 12 + c * 2 ^ 6) d (by simpa using hd)
      ⟨a * 4096 + b * 64 + c, by ring⟩]
  norm_num

theorem byteAt_append_middle (p e s : List Byte) (i : Nat) (hi : i < e.length) :
    byteAt (p ++ e ++ s) (p.length + i) = byteAt e i := by
  unfold byteAt
  rw [List.append_assoc, List.getD_append_right _ _ _ _ (by omega),
    show p.length + i - p.length = i by omega, List.getD_append _ _ _ _ hi]

theorem byteAt_ofNat_cons (n : Nat) (l : List Byte) (hn : n < 256) :
    byteAt (Fin.ofNat n :: l) 0 = n := by
  simp [byteAt, Fin.ofNat, Nat.mod_eq_of_lt hn]

theorem byteAt_cons_succ (b : Byte) (l : List Byte) (i : Nat) :
    byteAt (b :: l) (i + 1) = byteAt l i := by
  simp [byteAt]

/-- Claim C4.  The decoder inverts standard UTF-8 encoding: for every code
point `cp` below `0x110000` (so for every Unicode scalar value) and all byte
strings `p` and `s`, decoding `p ++ utf8_encode cp ++ s` at offset `|p|` gives
codepoint `cp` and consumes exactly the bytes of the encoding. -/
theorem decode_utf8_utf8_encode (cp : Nat) (hcp : cp < 0x110000) (p s : List Byte) :
    decode_utf8 (p ++ utf8_encode cp ++ s) p.length = (cp, (utf8_encode cp).length) := by
  have hm := lead_byte_masks
  have hp := payload_masks
  unfold utf8_encode
  split_ifs with h1 h2 h3
  · -- one byte
    have hb : byteAt (p ++ [Fin.ofNat cp] ++ s) p.length = cp := by
      have := byteAt_append_middle p [(Fin.ofNat cp : Byte)] s 0 (by simp)
      rw [Nat.add_zero] at this
      rw [this, byteAt_ofNat_cons _ _ (by omega)]
    unfold decode_utf8
    simp only [hb]
    rw [if_pos ((hm cp (by omega)).1.2 h1)]
    rfl
  · -- two bytes
    have hb0 := byteAt_append_middle p
      [(Fin.ofNat (0xC0 + cp / 64) : Byte), Fin.ofNat (0x80 + cp % 64)] s 0 (by simp)
    have hb1 := byteAt_append_middle p
      [(Fin.ofNat (0xC0 + cp / 64) : Byte), Fin.ofNat (0x80 + cp % 64)] s 1 (by simp)
    rw [Nat.add_zero, byteAt_ofNat_cons _ _ (by omega)] at hb0
    rw [byteAt_cons_succ, byteAt_ofNat_cons _ _ (by omega)] at hb1
    obtain ⟨m1, m2, -, -⟩ := hm (0xC0 + cp / 64) (by omega)
    unfold decode_utf8
    simp only [hb0, hb1, m1, m2, (hp (0xC0 + cp / 64) (by omega)).2.1,
      (hp (0x80 + cp % 64) (by omega)).1]
    rw [if_neg (by omega), if_pos ⟨by omega, by simp⟩, combine2 _ _ (by omega)]
    simp only [List.length_cons, List.length_nil, Prod.mk.injEq, and_true]
    omega
  · -- three bytes
    have hb0 := byteAt_append_middle p
      [(Fin.ofNat (0xE0 + cp / 4096) : Byte), Fin.ofNat (0x80 + cp / 64 % 64),
        Fin.ofNat (0x80 + cp % 64)] s 0 (by simp)
    have hb1 := byteAt_append_middle p
      [(Fin.ofNat (0xE0 + cp / 4096) : Byte), Fin.ofNat (0x80 + cp / 64 % 64),
        Fin.ofNat (0x80 + cp % 64)] s 1 (by simp)
    have hb2 := byteAt_append_middle p
      [(Fin.ofNat (0xE0 + cp / 4096) : Byte), Fin.ofNat (0x80 + cp / 64 % 64),
        Fin.ofNat (0x80 + cp % 64)] s 2 (by simp)
    rw [Nat.add_zero, byteAt_ofNat_cons _ _ (by omega)] at hb0
    rw [byteAt_cons_succ, byteAt_ofNat_cons _ _ (by omega)] at hb1
    rw [byteAt_cons_succ, byteAt_cons_succ, byteAt_ofNat_cons _ _ (by omega)] at hb2
    obtain ⟨m1, m2, m3, -⟩ := hm (0xE0 + cp / 4096) (by omega)
    unfold decode_utf8
    simp only [hb0, hb1, hb2, m1, m2, m3, (hp (0xE0 + cp / 4096) (by omega)).2.2.1,
      (hp (0x80 + cp / 64 % 64) (by omega)).1, (hp (0x80 + cp % 64) (by omega)).1]
    rw [if_neg (by omega), if_neg (by omega), if_pos ⟨by omega, by simp⟩,
      combine3 _ _ _ (by omega) (by omega)]
    simp only [List.length_cons, List.length_nil, Prod.mk.injEq, and_true]
    omega
  · -- four bytes
    have hb0 := byteAt_append_middle p
      [(Fin.ofNat (0xF0 + cp / 262144) : Byte), Fin.ofNat (0x80 + cp / 4096 % 64),
        Fin.ofNat (0x80 + cp / 64 % 64), Fin.ofNat (0x80 + cp % 64)] s 0 (by simp)
    have hb1 := byteAt_append_middle p
      [(Fin.ofNat (0xF0 + cp / 262144) : Byte), Fin.ofNat (0x80 + cp / 4096 % 64),
        Fin.ofNat (0x80 + cp / 64 % 64), Fin.ofNat (0x80 + cp % 64)] s 1 (by simp)
    have hb2 := byteAt_append_middle p
      [(Fin.ofNat (0xF0 + cp / 262144) : Byte), Fin.ofNat (0x80 + cp / 4096 % 64),
        Fin.ofNat (0x80 + cp / 64 % 64), Fin.ofNat (0x80 + cp % 64)] s 2 (by simp)
    have hb3 := byteAt_append_middle p
      [(Fin.ofNat (0xF0 + cp / 262144) : Byte), Fin.ofNat (0x80 + cp / 4096 % 64),
        Fin.ofNat (0x80 + cp / 64 % 64), Fin.ofNat (0x80 + cp % 64)] s 3 (by simp)
    rw [Nat.add_zero, byteAt_ofNat_cons _ _ (by omega)] at hb0
    rw [byteAt_cons_succ, byteAt_ofNat_cons _ _ (by omega)] at hb1
    rw [byteAt_cons_succ, byteAt_cons_succ, byteAt_ofNat_cons _ _ (by omega)] at hb2
    rw [byteAt_cons_succ, byteAt_cons_succ, byteAt_cons_succ,
      byteAt_ofNat_cons _ _ (by omega)] at hb3
    obtain ⟨m1, m2, m3, m4⟩ := hm (0xF0 + cp / 262144) (by omega)
    unfold decode_utf8
    simp only [hb0, hb1, hb2, hb3, m1, m2, m3, m4, (hp (0xF0 + cp / 262144) (by omega)).2.2.2,
      (hp (0x80 + cp / 4096 % 64) (by omega)).1, (hp (0x80 + cp / 64 % 64) (by omega)).1,
      (hp (0x80 + cp % 64) (by omega)).1]
    rw [if_neg (by omega), if_neg (by omega), if_neg (by omega), if_pos ⟨by omega, by simp⟩,
      combine4 _ _ _ _ (by omega) (by omega) (by omega)]
    simp only [List.length_cons, List.length_nil, Prod.mk.injEq, and_true]
    omega

theorem decode_utf8_utf8_encode_witness :
    0xE9 < 0x110000 ∧
    decode_utf8 ([0x63] ++ utf8_encode 0xE9 ++ [0x21]) ([0x63] : List Byte).length =
      (0xE9, (utf8_encode 0xE9).length) :=
  ⟨by decide, decode_utf8_utf8_encode 0xE9 (by decide) [0x63] [0x21]⟩

/-- The encoder `utf8_encode` agrees with the UTF-8 encoder of the Lean
library at the ends of each length class and at the letters used in this
development. -/
theorem utf8_encode_samples :
    ∀ cp ∈ [0x00, 0x41, 0x7F, 0x80, 0xE9, 0x178, 0x7FF, 0x800, 0x20AC, 0xD7FF, 0xE000, 0xFFFF,
        0x10000, 0x1F600, 0x10FFFF],
      (utf8_encode cp).map Fin.val = (String.utf8EncodeChar (Char.ofNat cp)).map UInt8.toNat := by
  decide

/-! ## The layout tables -/

theorem resolve_lt (c : Nat) (r : Nat × Bool) (h : resolve c = some r) : c < 128 := by
  have h1 : ∀ e ∈ keycode_map, e.1 < 128 := by decide
  have h2 : ∀ e ∈ shifted_keycode_map, e.1 < 128 := by decide
  unfold resolve at h
  cases hk : keycode_map.lookup c with
  | some k => exact h1 _ (mem_of_lookup_eq_some _ _ _ hk)
  | none =>
    cases hs : shifted_keycode_map.lookup c with
    | some k => exact h2 _ (mem_of_lookup_eq_some _ _ _ hs)
    | none => simp [hk, hs] at h

set_option maxRecDepth 100000 in
/-- Claim C5.  With lookup in the unshifted table first and in the shifted
table second, every uppercase letter `A`-`Z` and every character of the
shift-punctuation set resolves with the shift flag set, and every lowercase
letter `a`-`z`, every digit `0`-`9`, space, tab, newline and every unshifted
punctuation character resolves with the shift flag clear. -/
theorem resolve_shift_flag :
    (∀ c : Nat, 'A'.toNat ≤ c → c ≤ 'Z'.toNat → (resolve c).map Prod.snd = some true) ∧
    (∀ ch ∈ shift_punctuation, (resolve ch.toNat).map Prod.snd = some true) ∧
    (∀ c : Nat, 'a'.toNat ≤ c → c ≤ 'z'.toNat → (resolve c).map Prod.snd = some false) ∧
    (∀ c : Nat, '0'.toNat ≤ c → c ≤ '9'.toNat → (resolve c).map Prod.snd = some false) ∧
    (∀ ch ∈ unshifted_punctuation, (resolve ch.toNat).map Prod.snd = some false) := by
  have h : ∀ c : Nat, c < 128 →
      (('A'.toNat ≤ c → c ≤ 'Z'.toNat → (resolve c).map Prod.snd = some true) ∧
       ('a'.toNat ≤ c → c ≤ 'z'.toNat → (resolve c).map Prod.snd = some false) ∧
       ('0'.toNat ≤ c → c ≤ '9'.toNat → (resolve c).map Prod.snd = some false)) := by
    decide
  have hZ : 'Z'.toNat = 90 := rfl
  have hz : 'z'.toNat = 122 := rfl
  have h9 : '9'.toNat = 57 := rfl
  refine ⟨fun c h1 h2 => (h c (by omega)).1 h1 h2, by decide,
    fun c h1 h2 => (h c (by omega)).2.1 h1 h2, fun c h1 h2 => (h c (by omega)).2.2 h1 h2,
    by decide⟩

set_option maxRecDepth 100000 in
theorem unresolve_resolve_aux : ∀ c : Nat, c < 128 →
    ∀ r ∈ resolve c, unresolve r.1 r.2 = some c := by
  decide

/-- Claim C6.  Resolution is invertible: `unresolve` maps the key code and
shift flag of every character that resolves back to that character, hence no
two distinct characters resolve to the same pair. -/
theorem resolve_invertible :
    (∀ c : Nat, ∀ r, resolve c = some r → unresolve r.1 r.2 = some c) ∧
    (∀ c d : Nat, ∀ r, resolve c = some r → resolve d = some r → c = d) := by
  have h : ∀ c : Nat, ∀ r, resolve c = some r → unresolve r.1 r.2 = some c :=
    fun c r hr => unresolve_resolve_aux c (resolve_lt c r hr) r hr
  refine ⟨h, fun c d r hc hd => ?_⟩
  have := (h c r hc).symm.trans (h d r hd)
  exact Option.some.inj this

theorem resolve_shift_flag_witness :
    ('A'.toNat ≤ 72 ∧ 72 ≤ 'Z'.toNat ∧ (resolve 72).map Prod.snd = some true) ∧
    ('a'.toNat ≤ 105 ∧ 105 ≤ 'z'.toNat ∧ (resolve 105).map Prod.snd = some false) ∧
    ('0'.toNat ≤ 55 ∧ 55 ≤ '9'.toNat ∧ (resolve 55).map Prod.snd = some false) :=
  ⟨⟨by decide, by decide, resolve_shift_flag.1 72 (by decide) (by decide)⟩,
   ⟨by decide, by decide, resolve_shift_flag.2.2.1 105 (by decide) (by decide)⟩,
   ⟨by decide, by decide, resolve_shift_flag.2.2.2.1 55 (by decide) (by decide)⟩⟩

theorem resolve_invertible_witness :
    resolve '!'.toNat = some (KEY_1, true) ∧ resolve '1'.toNat = some (KEY_1, false) ∧
    unresolve KEY_1 true = some '!'.toNat ∧ unresolve KEY_1 false = some '1'.toNat :=
  ⟨by decide, by decide, resolve_invertible.1 '!'.toNat (KEY_1, true) (by decide),
    resolve_invertible.1 '1'.toNat (KEY_1, false) (by decide)⟩

/-! ## Accent folding and remaining facts -/

/-- Claim C7 fails on the code at one letter.  Every documented lowercase
letter folds to its ASCII letter, and the uppercase counterpart of each of
them folds to the uppercase ASCII letter, except for U+00FF: it folds to `y`,
but its uppercase counterpart U+0178 is not in the table and yields `0`. -/
theorem strip_accent_unicode_misses_U0178 :
    (∀ e ∈ documented_folds, strip_accent_unicode e.1 = e.2.toNat) ∧
    (∀ e ∈ documented_folds, e.1 ≠ 0xFF →
      strip_accent_unicode (unicode_upper e.1) = e.2.toUpper.toNat) ∧
    strip_accent_unicode 0xFF = 'y'.toNat ∧
    unicode_upper 0xFF = 0x178 ∧
    strip_accent_unicode 0x178 = 0 ∧
    strip_accent_unicode 0x178 ≠ 'Y'.toNat := by
  decide

/-- Claim C8 as stated fails at codepoint 0.  It is below 128 and not in the
accent table, so it is passed through, as the value `0`; that is also the
value returned for U+20AC, which is above 127 and not in the table. -/
theorem strip_accent_unicode_zero_ambiguous :
    accent_map.lookup 0 = none ∧ 0 < 128 ∧
    accent_map.lookup 0x20AC = none ∧ 128 ≤ 0x20AC ∧
    strip_accent_unicode 0 = strip_accent_unicode 0x20AC := by
  decide

theorem accent_map_lookup_of_mem (cp : Nat) (ch : Char) (h : (cp, ch) ∈ accent_map) :
    accent_map.lookup cp = some ch := by
  have haux : ∀ e ∈ accent_map, accent_map.lookup e.1 = some e.2 := by decide
  exact haux _ h

/-- Claim C8, amended.  For every codepoint: if the accent table holds an
entry for it, `strip_accent_unicode` returns the character of that entry,
which is a non-zero ASCII character; otherwise, if the codepoint is below 128
it is returned unchanged; otherwise the result is `0`, meaning no result.
The value `0` is different from every table entry and from every
passed-through codepoint other than codepoint 0 itself. -/
theorem strip_accent_unicode_lookup_order (cp : Nat) :
    (∀ ch, (cp, ch) ∈ accent_map →
      strip_accent_unicode cp = ch.toNat ∧ ch.toNat ≠ 0 ∧ ch.toNat < 128) ∧
    ((∀ ch, (cp, ch) ∉ accent_map) → cp < 128 → strip_accent_unicode cp = cp) ∧
    ((∀ ch, (cp, ch) ∉ accent_map) → 128 ≤ cp → strip_accent_unicode cp = 0) ∧
    ((∀ ch, (cp, ch) ∉ accent_map) → cp < 128 → cp ≠ 0 → strip_accent_unicode cp ≠ 0) := by
  have hnone : (∀ ch, (cp, ch) ∉ accent_map) → accent_map.lookup cp = none := by
    intro h
    cases hl : accent_map.lookup cp with
    | none => rfl
    | some ch => exact absurd (mem_of_lookup_eq_some _ _ _ hl) (h ch)
  refine ⟨fun ch h => ?_, fun h hlt => ?_, fun h hge => ?_, fun h hlt hne => ?_⟩
  · have hval : ∀ e ∈ accent_map, e.2.toNat ≠ 0 ∧ e.2.toNat < 128 := by decide
    exact ⟨by simp [strip_accent_unicode, accent_map_lookup_of_mem cp ch h], hval _ h⟩
  · simp [strip_accent_unicode, hnone h, hlt]
  · simp [strip_accent_unicode, hnone h, show ¬ cp < 128 by omega]
  · simp [strip_accent_unicode, hnone h, hlt, hne]

theorem strip_accent_unicode_lookup_order_witness :
    ((0xE9, 'e') ∈ accent_map ∧ strip_accent_unicode 0xE9 = 'e'.toNat) ∧
    ((∀ ch, (0x41, ch) ∉ accent_map) ∧ 0x41 < 128 ∧ strip_accent_unicode 0x41 = 0x41) ∧
    ((∀ ch, (0x20AC, ch) ∉ accent_map) ∧ 128 ≤ 0x20AC ∧ strip_accent_unicode 0x20AC = 0) :=
  have h41 : ∀ ch, (0x41, ch) ∉ accent_map := fun ch h =>
    Option.noConfusion
      ((show accent_map.lookup 0x41 = none by decide).symm.trans
        (accent_map_lookup_of_mem _ _ h))
  have h20AC : ∀ ch, (0x20AC, ch) ∉ accent_map := fun ch h =>
    Option.noConfusion
      ((show accent_map.lookup 0x20AC = none by decide).symm.trans
        (accent_map_lookup_of_mem _ _ h))
  ⟨⟨by decide, ((strip_accent_unicode_lookup_order 0xE9).1 'e' (by decide)).1⟩,
   ⟨h41, by decide, (strip_accent_unicode_lookup_order 0x41).2.1 h41 (by decide)⟩,
   ⟨h20AC, by decide, (strip_accent_unicode_lookup_order 0x20AC).2.2.1 h20AC (by decide)⟩⟩

/-- Every codepoint reported by `decode_utf8` is below `2 ^ 21`, so storing it
in a `uint32_t` does not change it. -/
theorem decode_utf8_codepoint_lt (text : List Byte) (pos : Nat) :
    (decode_utf8 text pos).1 < 2 ^ 21 := by
  have hp := payload_masks
  have b0 := byteAt_lt text pos
  have b1 := byteAt_lt text (pos + 1)
  have b2 := byteAt_lt text (pos + 2)
  have b3 := byteAt_lt text (pos + 3)
  unfold decode_utf8
  simp only [(hp _ b0).2.1, (hp _ b0).2.2.1, (hp _ b0).2.2.2, (hp _ b1).1, (hp _ b2).1,
    (hp _ b3).1]
  split_ifs
  · simp only []; omega
  · rw [combine2 _ _ (by omega)]; omega
  · rw [combine3 _ _ _ (by omega) (by omega)]; omega
  · rw [combine4 _ _ _ _ (by omega) (by omega) (by omega)]; omega
  · simp

/-- The typing loop never exhausts `text.length - i` iterations, whatever the
outcomes of the writes. -/
theorem type_loop_isSome (env : Env) (text : List Byte) (fuel i : Nat) (s : State)
    (hfuel : text.length - i ≤ fuel) : (type_loop env text fuel i s).isSome = true := by
  induction fuel generalizing i s with
  | zero =>
    have hi : ¬ i < text.length := by omega
    simp [type_loop, hi]
  | succ fuel ih =>
    rw [type_loop]
    by_cases hi : i < text.length
    · have hb := decode_utf8_bytes_pos text i
      simp only [hi, if_true]
      exact ih (i + (decode_utf8 text i).2) (type_step env text i s).2 (by omega)
    · simp [hi]

theorem keycode_map_keys_nodup : (keycode_map.map Prod.fst).Nodup := by decide

theorem shifted_keycode_map_keys_nodup : (shifted_keycode_map.map Prod.fst).Nodup := by decide

theorem accent_map_keys_nodup : (accent_map.map Prod.fst).Nodup := by decide

/-- The lookup of `uinput_type_text` is `resolve`: the key typed for a
non-zero character is the resolved key, with the resolved shift flag. -/
theorem type_step_eq_resolve (env : Env) (text : List Byte) (i : Nat) (s : State)
    (h0 : strip_accent_unicode (decode_utf8 text i).1 ≠ 0) :
    type_step env text i s =
      let r := match resolve (strip_accent_unicode (decode_utf8 text i).1) with
        | some (k, shift) => type_key env k shift s
        | none => (false, s)
      (i + (decode_utf8 text i).2,
        if !r.1 ∧ (decode_utf8 text i).1 ≠ 0 then
          fprintf (.cannot_type (c_str (substr text i (decode_utf8 text i).2))
            (decode_utf8 text i).1) r.2
        else r.2) := by
  unfold type_step resolve
  simp only [ne_eq, h0, not_false_eq_true, if_true]
  cases keycode_map.lookup (strip_accent_unicode (decode_utf8 text i).1) with
  | some k => rfl
  | none =>
    cases shifted_keycode_map.lookup (strip_accent_unicode (decode_utf8 text i).1) with
    | some k => rfl
    | none => rfl


/-! ## The typing loop under arbitrary write outcomes -/

theorem nwrites_eq_length_attempted (t : List Call) : nwrites t = (attempted t).length := by
  induction t with
  | nil => rfl
  | cons c t ih =>
    cases c <;> simp_all [nwrites, attempted, Call.isWrite, List.filter_cons, List.filterMap_cons]

theorem attempted_log_of_not_write (s : State) (c : Call) (h : c.isWrite = false) :
    attempted (s.log c).trace = attempted s.trace := by
  cases c <;> simp_all [State.log, attempted, Call.isWrite]

theorem attempted_fprintf (msg : Message) (s : State) :
    attempted (fprintf msg s).trace = attempted s.trace :=
  attempted_log_of_not_write s _ rfl

theorem attempted_type_key (env : Env) (k : Nat) (shift : Bool) (s : State) (hk : k < 65536) :
    attempted (type_key env k shift s).2.trace =
      attempted s.trace ++ (key_sequence k shift).take
        (ok_run env (nwrites s.trace) (key_sequence k shift).length + 1) := by
  rw [type_key_eq_send_all, send_all_eq]
  simp [attempted_append, attempted_write_calls, map_stored_key_sequence k shift hk]

/-- Whatever the outcomes of the writes, one loop iteration attempts the
records of the decoded codepoint up to and including the first failing
write. -/
theorem attempted_type_step (env : Env) (text : List Byte) (i : Nat) (s : State) :
    attempted (type_step env text i s).2.trace =
      attempted s.trace ++ (codepoint_events (decode_utf8 text i).1).take
        (ok_run env (nwrites s.trace) (codepoint_events (decode_utf8 text i).1).length + 1) := by
  unfold type_step codepoint_events
  simp only []
  by_cases h0 : strip_accent_unicode (decode_utf8 text i).1 = 0
  · have h1 : keycode_map.lookup 0 = none := by decide
    have h2 : shifted_keycode_map.lookup 0 = none := by decide
    simp only [h0, h1, h2, ne_eq, not_true_eq_false, if_false]
    split_ifs <;> simp [attempted_fprintf]
  · simp only [ne_eq, h0, not_false_eq_true, if_true]
    cases hk : keycode_map.lookup (strip_accent_unicode (decode_utf8 text i).1) with
    | some k =>
      have := attempted_type_key env k false s (keycode_map_lt _ _ hk)
      simp only [key_sequence, Bool.false_eq_true, if_false] at this
      simp only []
      split_ifs <;> simp [attempted_fprintf, this]
    | none =>
      cases hs : shifted_keycode_map.lookup (strip_accent_unicode (decode_utf8 text i).1) with
      | some k =>
        have := attempted_type_key env k true s (shifted_keycode_map_lt _ _ hs)
        simp only [key_sequence, if_true] at this
        simp only []
        split_ifs <;> simp [attempted_fprintf, this]
      | none =>
        simp only []
        split_ifs <;> simp [attempted_fprintf]

theorem type_loop_attempted (env : Env) (text : List Byte)
    (fuel i : Nat) (s : State) (hfuel : text.length - i ≤ fuel) :
    ∃ t, type_loop env text fuel i s = some t ∧
      attempted t.trace =
        attempted s.trace ++ attempts_from env (codepoints_from text fuel i) (nwrites s.trace) := by
  induction fuel generalizing i s with
  | zero =>
    have hi : ¬ i < text.length := by omega
    exact ⟨s, by simp [type_loop, hi], by simp [codepoints_from, attempts_from]⟩
  | succ fuel ih =>
    by_cases hi : i < text.length
    · have hb := decode_utf8_bytes_pos text i
      obtain ⟨t, ht, hat⟩ := ih (i + (decode_utf8 text i).2) (type_step env text i s).2
        (by omega)
      refine ⟨t, ?_, ?_⟩
      · rw [type_loop]
        simp only [hi, if_true]
        rw [← ht]
        rfl
      · rw [hat, nwrites_eq_length_attempted (type_step env text i s).2.trace,
          attempted_type_step env text i s]
        simp [codepoints_from, hi, attempts_from, nwrites_eq_length_attempted s.trace]
    · exact ⟨s, by rw [type_loop]; simp [hi], by simp [codepoints_from, hi, attempts_from]⟩

theorem attempted_ioctl (env : Env) (r : Request) (a : Nat) (s : State) :
    attempted (ioctl env r a s).2.trace = attempted s.trace :=
  attempted_log_of_not_write s _ rfl

theorem attempted_foldl_ioctl (env : Env) (ks : List Nat) (s : State) :
    attempted (ks.foldl (fun s k => (ioctl env .UI_SET_KEYBIT k s).2) s).trace
      = attempted s.trace := by
  induction ks generalizing s with
  | nil => rfl
  | cons k ks ih => simp only [List.foldl_cons, ih, attempted_ioctl]

theorem attempted_init_fail (msg : Message) (s : State) :
    attempted (init_fail msg s).2.trace = attempted s.trace := by
  simp [init_fail, attempted_log_of_not_write, Call.isWrite, attempted_fprintf]

/-- The function `init_uinput` attempts no write. -/
theorem attempted_init_uinput (env : Env) (s : State) :
    attempted (init_uinput env s).2.trace = attempted s.trace := by
  unfold init_uinput
  split
  · rfl
  · simp only []
    split
    · simp [attempted_fprintf, attempted_log_of_not_write, Call.isWrite]
    · split
      · simp [attempted_init_fail, attempted_ioctl, attempted_log_of_not_write, Call.isWrite]
      · split
        · simp [attempted_init_fail, attempted_ioctl, attempted_log_of_not_write, Call.isWrite]
        · split
          · simp [attempted_init_fail, attempted_ioctl, attempted_log_of_not_write, Call.isWrite,
              attempted_foldl_ioctl]
          · split
            · simp [attempted_init_fail, attempted_ioctl, attempted_log_of_not_write,
                Call.isWrite, attempted_foldl_ioctl]
            · simp [attempted_init_fail, attempted_ioctl, attempted_log_of_not_write,
                Call.isWrite, attempted_foldl_ioctl, attempted_fprintf]

/-- With the backend available and for every pattern of write outcomes,
`uinput_type_text` returns `true`, and a failed write ends only the records of
the character being typed: the records it tries to write are, for each
codepoint of the text in turn, the records of that codepoint up to and
including the first one whose write fails. -/
theorem uinput_type_text_attempts (env : Env) (text : List Byte) (s : State)
    (havail : (uinput_available env s).1 = true) :
    ∃ t, uinput_type_text env text s = some (true, t) ∧
      attempted t.trace =
        attempted s.trace ++ attempts_from env (codepoints text) (nwrites s.trace) := by
  obtain ⟨t, ht, hat⟩ := type_loop_attempted env text text.length 0
    (fprintf (.typing_text (c_str text)) (uinput_available env s).2) (by omega)
  refine ⟨fprintf .typing_complete t, ?_, ?_⟩
  · unfold uinput_type_text
    simp only [havail, Bool.not_true, Bool.false_eq_true, if_false, ht]
  · rw [attempted_fprintf, hat, nwrites_eq_length_attempted, attempted_fprintf]
    simp only [uinput_available, attempted_init_uinput, codepoints, nwrites_eq_length_attempted]

/-! ## Stopping at the first failed write; coverage of the tables -/

theorem write_calls_eq_writes_upto (env : Env) (fd : Int) (n : Nat) (evs : List input_event) :
    write_calls env fd n evs =
      writes_upto fd (evs.map input_event.stored) (ok_run env n evs.length) := by
  induction evs generalizing n with
  | nil => simp [write_calls, writes_upto, ok_run]
  | cons ev rest ih =>
    cases h : env.write_ok n with
    | false => simp [write_calls, writes_upto, ok_run, h]
    | true =>
      have := ih (n + 1)
      simp only [writes_upto] at this
      simp [write_calls, writes_upto, ok_run, h, this]

theorem ok_run_fails (env : Env) (n len : Nat) (h : ok_run env n len < len) :
    env.write_ok (n + ok_run env n len) = false := by
  induction len generalizing n with
  | zero => simp at h
  | succ len ih =>
    simp only [ok_run] at h ⊢
    cases hw : env.write_ok n with
    | false => simp [hw]
    | true =>
      simp only [hw, if_true] at h ⊢
      have := ih (n + 1) (by omega)
      rw [show n + (ok_run env (n + 1) len + 1) = n + 1 + ok_run env (n + 1) len by omega]
      exact this

/-- Claim C17.  For every key code `k` (a 16-bit value), shift flag and
pattern of write outcomes, `type_key` stops at the first failed write.  With
`m` the number of writes that succeed before the first failure (`m` is the
length of the pattern when none fails), the calls it makes are exactly the
writes of the first `m` records of the 4- or 8-record pattern, all
successful, followed by the failed write of record `m` when there is one; it
returns `false` exactly when a write failed; and `g_uinput_fd` and
`g_uinput_initialized` are left as they were. -/
theorem type_key_stops_at_first_failure (env : Env) (k : Nat) (shift : Bool) (s : State)
    (hk : k < 65536) :
    ∃ m, m ≤ (key_sequence k shift).length ∧
      (∀ j, j < m → env.write_ok (nwrites s.trace + j) = true) ∧
      (m < (key_sequence k shift).length → env.write_ok (nwrites s.trace + m) = false) ∧
      (type_key env k shift s).2.trace =
        s.trace ++ writes_upto s.g_uinput_fd (key_sequence k shift) m ∧
      attempted (type_key env k shift s).2.trace =
        attempted s.trace ++ (key_sequence k shift).take (m + 1) ∧
      ((type_key env k shift s).1 = false ↔ m < (key_sequence k shift).length) ∧
      (type_key env k shift s).2.g_uinput_fd = s.g_uinput_fd ∧
      (type_key env k shift s).2.g_uinput_initialized = s.g_uinput_initialized := by
  refine ⟨ok_run env (nwrites s.trace) (key_sequence k shift).length, ok_run_le _ _ _,
    fun j hj => ((le_ok_run_iff env _ _ _).1 (le_refl _)).2 j hj, ok_run_fails env _ _, ?_,
    attempted_type_key env k shift s hk, ?_, ?_, ?_⟩
  · rw [type_key_eq_send_all, send_all_eq, write_calls_eq_writes_upto,
      map_stored_key_sequence k shift hk]
  · rw [type_key_eq_send_all, send_all_eq]
    have := ok_run_le env (nwrites s.trace) (key_sequence k shift).length
    simp only [decide_eq_false_iff_not]
    omega
  · rw [type_key_eq_send_all, send_all_eq]
  · rw [type_key_eq_send_all, send_all_eq]

theorem type_key_stops_at_first_failure_witness :
    KEY_A < 65536 ∧
    ∃ m, m ≤ (key_sequence KEY_A true).length ∧
      (∀ j, j < m → env_second_write_fails.write_ok (nwrites state_ready.trace + j) = true) ∧
      (m < (key_sequence KEY_A true).length →
        env_second_write_fails.write_ok (nwrites state_ready.trace + m) = false) ∧
      (type_key env_second_write_fails KEY_A true state_ready).2.trace =
        state_ready.trace ++ writes_upto state_ready.g_uinput_fd (key_sequence KEY_A true) m ∧
      attempted (type_key env_second_write_fails KEY_A true state_ready).2.trace =
        attempted state_ready.trace ++ (key_sequence KEY_A true).take (m + 1) ∧
      ((type_key env_second_write_fails KEY_A true state_ready).1 = false ↔
        m < (key_sequence KEY_A true).length) ∧
      (type_key env_second_write_fails KEY_A true state_ready).2.g_uinput_fd =
        state_ready.g_uinput_fd ∧
      (type_key env_second_write_fails KEY_A true state_ready).2.g_uinput_initialized =
        state_ready.g_uinput_initialized :=
  ⟨by decide,
    type_key_stops_at_first_failure env_second_write_fails KEY_A true state_ready (by decide)⟩

set_option maxRecDepth 100000 in
theorem resolve_isSome_lt : ∀ c : Nat, c < 128 →
    ((resolve c).isSome = true ↔ (0x20 ≤ c ∧ c ≤ 0x7E) ∨ c = 0x09 ∨ c = 0x0A) := by
  decide

set_option maxRecDepth 100000 in
/-- Claim C19.  A character code resolves to a key through the two tables if
and only if it is a printable ASCII character `0x20..0x7E`, tab `0x09` or
newline `0x0A`.  Of the byte values `0..255` exactly 97 resolve, among them
all 95 printable ASCII characters. -/
theorem resolve_isSome_iff :
    (∀ c : Nat, (resolve c).isSome = true ↔ (0x20 ≤ c ∧ c ≤ 0x7E) ∨ c = 0x09 ∨ c = 0x0A) ∧
    ((List.range 256).filter fun c => (resolve c).isSome).length = 97 ∧
    ((List.range 256).filter fun c =>
      decide (0x20 ≤ c ∧ c ≤ 0x7E) && (resolve c).isSome).length = 95 := by
  refine ⟨fun c => ?_, by decide, by decide⟩
  by_cases hc : c < 128
  · exact resolve_isSome_lt c hc
  · constructor
    · intro h
      obtain ⟨r, hr⟩ := Option.isSome_iff_exists.1 h
      exact absurd (resolve_lt c r hr) hc
    · intro h
      omega

/-! ## Device initialisation -/

theorem nioctls_append (t u : List Call) : nioctls (t ++ u) = nioctls t + nioctls u := by
  simp [nioctls]

theorem nioctls_nil : nioctls [] = 0 := rfl

theorem nioctls_cons (c : Call) (t : List Call) :
    nioctls (c :: t) = (if c.isIoctl then 1 else 0) + nioctls t := by
  cases c <;> simp [nioctls, Call.isIoctl, List.filter_cons, Nat.add_comm]

theorem nioctls_keybit_calls (env : Env) (fd : Int) (n : Nat) (ks : List Nat) :
    nioctls (keybit_calls env fd n ks) = ks.length := by
  induction ks generalizing n with
  | nil => rfl
  | cons k ks ih =>
    have := ih (n + 1)
    simp only [nioctls] at this
    simp [keybit_calls, nioctls, Call.isIoctl, this]

theorem foldl_ioctl_eq (env : Env) (ks : List Nat) (s : State) :
    ks.foldl (fun s k => (ioctl env .UI_SET_KEYBIT k s).2) s =
      { s with trace := s.trace ++ keybit_calls env s.g_uinput_fd (nioctls s.trace) ks } := by
  induction ks generalizing s with
  | nil => simp [keybit_calls]
  | cons k ks ih =>
    simp only [List.foldl_cons, ih, keybit_calls]
    simp [ioctl, State.log, nioctls_append, nioctls_cons, nioctls_nil, Call.isIoctl]

/-- The result of `init_uinput` in a state where the device has not been
initialised, case by case. -/
theorem init_uinput_eq (env : Env) (s : State) (h : s.g_uinput_initialized = false) :
    init_uinput env s =
      (if env.open_ret (nopens s.trace) < 0 then
        (false, ⟨env.open_ret (nopens s.trace), true,
          s.trace ++ [.open_ (env.open_ret (nopens s.trace)), .fprintf .open_failed]⟩)
      else if env.ioctl_ret (nioctls s.trace) < 0 then
        (false, ⟨-1, true,
          s.trace ++ [.open_ (env.open_ret (nopens s.trace)),
            .ioctl (env.open_ret (nopens s.trace)) .UI_SET_EVBIT EV_KEY
              (env.ioctl_ret (nioctls s.trace)),
            .fprintf .set_ev_key_failed, .close (env.open_ret (nopens s.trace))]⟩)
      else if env.ioctl_ret (nioctls s.trace + 1) < 0 then
        (false, ⟨-1, true,
          s.trace ++ [.open_ (env.open_ret (nopens s.trace)),
            .ioctl (env.open_ret (nopens s.trace)) .UI_SET_EVBIT EV_KEY
              (env.ioctl_ret (nioctls s.trace)),
            .ioctl (env.open_ret (nopens s.trace)) .UI_SET_EVBIT EV_SYN
              (env.ioctl_ret (nioctls s.trace + 1)),
            .fprintf .set_ev_syn_failed, .close (env.open_ret (nopens s.trace))]⟩)
      else if env.ioctl_ret (nioctls s.trace + 54) < 0 then
        (false, ⟨-1, true,
          s.trace ++ declare_calls env (env.open_ret (nopens s.trace)) (nioctls s.trace) ++
            [.fprintf .setup_failed, .close (env.open_ret (nopens s.trace))]⟩)
      else if env.ioctl_ret (nioctls s.trace + 55) < 0 then
        (false, ⟨-1, true,
          s.trace ++ declare_calls env (env.open_ret (nopens s.trace)) (nioctls s.trace) ++
            [.ioctl (env.open_ret (nopens s.trace)) .UI_DEV_CREATE 0
              (env.ioctl_ret (nioctls s.trace + 55)),
            .fprintf .create_failed, .close (env.open_ret (nopens s.trace))]⟩)
      else
        (true, ⟨env.open_ret (nopens s.trace), true,
          s.trace ++ declare_calls env (env.open_ret (nopens s.trace)) (nioctls s.trace) ++
            [.ioctl (env.open_ret (nopens s.trace)) .UI_DEV_CREATE 0
              (env.ioctl_ret (nioctls s.trace + 55)),
            .usleep 100000, .fprintf .created]⟩)) := by
  have hlen : enabled_keys.length = 52 := rfl
  unfold init_uinput
  simp only [h, Bool.false_eq_true, if_false, foldl_ioctl_eq]
  by_cases h0 : env.open_ret (nopens s.trace) < 0
  · simp [h0, fprintf, State.log]
  · by_cases h1 : env.ioctl_ret (nioctls s.trace) < 0
    · simp [h0, h1, ioctl, init_fail, fprintf, State.log, nioctls_append, nioctls_cons, nioctls_nil,
        Call.isIoctl]
    · by_cases h2 : env.ioctl_ret (nioctls s.trace + 1) < 0
      · simp [h0, h1, h2, ioctl, init_fail, fprintf, State.log, nioctls_append,
          nioctls_cons, nioctls_nil, Call.isIoctl]
      · by_cases h3 : env.ioctl_ret (nioctls s.trace + 54) < 0
        · simp [h0, h1, h2, h3, ioctl, init_fail, fprintf, State.log, nioctls_append,
            nioctls_cons, nioctls_nil, Call.isIoctl, foldl_ioctl_eq, nioctls_keybit_calls, hlen,
            declare_calls, Nat.add_assoc]
        · by_cases h4 : env.ioctl_ret (nioctls s.trace + 55) < 0
          · simp [h0, h1, h2, h3, h4, ioctl, init_fail, fprintf, State.log, nioctls_append,
              nioctls_cons, nioctls_nil, Call.isIoctl, foldl_ioctl_eq, nioctls_keybit_calls, hlen,
              declare_calls, Nat.add_assoc]
          · simp [h0, h1, h2, h3, h4, ioctl, init_fail, fprintf, State.log, nioctls_append,
              nioctls_cons, nioctls_nil, Call.isIoctl, foldl_ioctl_eq, nioctls_keybit_calls, hlen,
              declare_calls, Nat.add_assoc]

/-- After any call of `init_uinput` the device is marked initialised and the
result is `g_uinput_fd >= 0`. -/
theorem init_uinput_post (env : Env) (s : State) :
    (init_uinput env s).2.g_uinput_initialized = true ∧
      (init_uinput env s).1 = decide ((init_uinput env s).2.g_uinput_fd ≥ 0) := by
  cases h : s.g_uinput_initialized with
  | true => simp [init_uinput, h]
  | false =>
    rw [init_uinput_eq env s h]
    split_ifs with h0 h1 h2 h3 h4
    · simp only [ge_iff_le, true_and]; simpa using h0
    · simp
    · simp
    · simp
    · simp
    · simp only [ge_iff_le, true_and]; simpa using h0

theorem type_key_globals (env : Env) (k : Nat) (shift : Bool) (s : State) :
    (type_key env k shift s).2.g_uinput_fd = s.g_uinput_fd ∧
      (type_key env k shift s).2.g_uinput_initialized = s.g_uinput_initialized := by
  rw [type_key_eq_send_all, send_all_eq]
  exact ⟨rfl, rfl⟩

theorem type_step_globals (env : Env) (text : List Byte) (i : Nat) (s : State) :
    (type_step env text i s).2.g_uinput_fd = s.g_uinput_fd ∧
      (type_step env text i s).2.g_uinput_initialized = s.g_uinput_initialized := by
  unfold type_step
  simp only []
  split_ifs <;> (try split) <;> (try split) <;>
    simp [fprintf, State.log, type_key_globals]

theorem type_loop_globals (env : Env) (text : List Byte) (fuel i : Nat) (s t : State)
    (h : type_loop env text fuel i s = some t) :
    t.g_uinput_fd = s.g_uinput_fd ∧ t.g_uinput_initialized = s.g_uinput_initialized := by
  induction fuel generalizing i s with
  | zero =>
    rw [type_loop] at h
    split_ifs at h
    cases h
    exact ⟨rfl, rfl⟩
  | succ fuel ih =>
    rw [type_loop] at h
    split_ifs at h with hi
    · have := ih (type_step env text i s).1 (type_step env text i s).2 h
      rw [this.1, this.2]
      exact type_step_globals env text i s
    · cases h
      exact ⟨rfl, rfl⟩

theorem init_uinput_of_initialized (env : Env) (s : State) (h : s.g_uinput_initialized = true) :
    init_uinput env s = (decide (s.g_uinput_fd ≥ 0), s) := by
  simp [init_uinput, h]

theorem uinput_type_text_globals (env : Env) (text : List Byte) (s : State) :
    ∃ r t, uinput_type_text env text s = some (r, t) ∧
      t.g_uinput_fd = (init_uinput env s).2.g_uinput_fd ∧ t.g_uinput_initialized = true := by
  unfold uinput_type_text uinput_available
  simp only []
  cases hr : (init_uinput env s).1 with
  | false =>
    exact ⟨false, fprintf (.not_available (c_str text)) (init_uinput env s).2, by simp, rfl,
      (init_uinput_post env s).1⟩
  | true =>
    have hsome := type_loop_isSome env text text.length 0
      (fprintf (.typing_text (c_str text)) (init_uinput env s).2) (by omega)
    obtain ⟨t, ht⟩ := Option.isSome_iff_exists.1 hsome
    have hg := type_loop_globals env text _ _ _ _ ht
    refine ⟨true, fprintf .typing_complete t, by simp [ht], ?_, ?_⟩
    · exact hg.1
    · exact hg.2.trans (init_uinput_post env s).1

/-- Claim C11.  The kernel backend probe is idempotent once resolved.  For
every state `s`, every outcome `env` of the system calls of a first call of
`init_uinput`, every list `extra` of calls made afterwards and every outcome
`env2` of later system calls: a later call of `init_uinput` (or
`uinput_available`) returns the boolean of the first call and leaves the
state, trace included, as it was, so it performs no `open`, `ioctl` or
`close`.  A call of `uinput_type_text` in between leaves `g_uinput_fd` and
`g_uinput_initialized` as the first call set them. -/
theorem init_uinput_idempotent (env env2 : Env) (s : State) (extra : List Call) :
    init_uinput env2 ((init_uinput env s).2.later extra) =
      ((init_uinput env s).1, (init_uinput env s).2.later extra) ∧
    uinput_available env2 ((init_uinput env s).2.later extra) =
      ((uinput_available env s).1, (init_uinput env s).2.later extra) ∧
    (∀ text, ∃ r t,
      uinput_type_text env2 text ((init_uinput env s).2.later extra) = some (r, t) ∧
      t.g_uinput_fd = (init_uinput env s).2.g_uinput_fd ∧
      t.g_uinput_initialized = (init_uinput env s).2.g_uinput_initialized) := by
  have hp := init_uinput_post env s
  have h1 : init_uinput env2 ((init_uinput env s).2.later extra) =
      ((init_uinput env s).1, (init_uinput env s).2.later extra) := by
    have hin : ((init_uinput env s).2.later extra).g_uinput_initialized = true := hp.1
    rw [init_uinput_of_initialized env2 _ hin, hp.2]
    rfl
  refine ⟨h1, h1, fun text => ?_⟩
  obtain ⟨r, t, ht, hfd, hin⟩ := uinput_type_text_globals env2 text
    ((init_uinput env s).2.later extra)
  rw [h1] at hfd
  exact ⟨r, t, ht, hfd, hin.trans hp.1.symm⟩

/-- Claim C13 fails on the code for the per-key calls.  From program start,
when the `UI_SET_KEYBIT` call for `KEY_Q` fails and every other call succeeds,
`init_uinput` still issues `UI_DEV_CREATE` and returns `true`; when instead the
`UI_SET_EVBIT` call for `EV_KEY` fails, it returns `false` and `UI_DEV_CREATE`
is not issued. -/
theorem init_uinput_ignores_failed_keybit :
    (init_uinput env_keybit_fails State.init).1 = true ∧
    Call.ioctl 3 .UI_SET_KEYBIT KEY_Q (-1) ∈ (init_uinput env_keybit_fails State.init).2.trace ∧
    Call.ioctl 3 .UI_DEV_CREATE 0 0 ∈ (init_uinput env_keybit_fails State.init).2.trace ∧
    (init_uinput env_evbit_fails State.init).1 = false ∧
    (∀ c ∈ (init_uinput env_evbit_fails State.init).2.trace,
      ∀ fd a r, c ≠ Call.ioctl fd .UI_DEV_CREATE a r) := by
  refine ⟨by decide, by decide, by decide, by decide, ?_⟩
  have h : (init_uinput env_evbit_fails State.init).2.trace =
      [.open_ 3, .ioctl 3 .UI_SET_EVBIT EV_KEY (-1), .fprintf .set_ev_key_failed, .close 3] := by
    decide
  rw [h]
  intro c hc fd a r
  simp only [List.mem_cons, List.mem_singleton, List.not_mem_nil, or_false] at hc
  rcases hc with rfl | rfl | rfl | rfl <;> simp

/-- Whatever the per-key `UI_SET_KEYBIT` calls return, `init_uinput` creates
the device and returns `true` as soon as `open`, the two `UI_SET_EVBIT` calls,
`UI_DEV_SETUP` and `UI_DEV_CREATE` succeed. -/
theorem init_uinput_true_of_checked_calls (env : Env) (s : State)
    (h : s.g_uinput_initialized = false)
    (h0 : 0 ≤ env.open_ret (nopens s.trace))
    (h1 : 0 ≤ env.ioctl_ret (nioctls s.trace))
    (h2 : 0 ≤ env.ioctl_ret (nioctls s.trace + 1))
    (h3 : 0 ≤ env.ioctl_ret (nioctls s.trace + 54))
    (h4 : 0 ≤ env.ioctl_ret (nioctls s.trace + 55)) :
    (init_uinput env s).1 = true := by
  rw [init_uinput_eq env s h]
  simp [not_lt.2 h0, not_lt.2 h1, not_lt.2 h2, not_lt.2 h3, not_lt.2 h4]

theorem mem_keybit_calls (env : Env) (fd : Int) (n : Nat) (ks : List Nat) (k : Nat)
    (hk : k ∈ ks) : ∃ r, Call.ioctl fd .UI_SET_KEYBIT k r ∈ keybit_calls env fd n ks := by
  induction ks generalizing n with
  | nil => simp at hk
  | cons k0 ks ih =>
    rcases List.mem_cons.1 hk with rfl | hk
    · exact ⟨env.ioctl_ret n, by simp [keybit_calls]⟩
    · obtain ⟨r, hr⟩ := ih (n + 1) hk
      exact ⟨r, by simp [keybit_calls, hr]⟩

theorem keybit_calls_request (env : Env) (fd : Int) (n : Nat) (ks : List Nat) (c : Call)
    (hc : c ∈ keybit_calls env fd n ks) : ∃ k r, c = Call.ioctl fd .UI_SET_KEYBIT k r := by
  induction ks generalizing n with
  | nil => simp [keybit_calls] at hc
  | cons k0 ks ih =>
    simp only [keybit_calls, List.mem_cons] at hc
    rcases hc with rfl | hc
    · exact ⟨_, _, rfl⟩
    · exact ih (n + 1) hc

theorem create_not_mem_declare_calls (env : Env) (fd : Int) (n : Nat) (fd2 : Int) (a : Nat)
    (r : Int) : Call.ioctl fd2 .UI_DEV_CREATE a r ∉ declare_calls env fd n := by
  intro h
  unfold declare_calls at h
  rcases List.mem_append.1 h with h | h
  · rcases List.mem_append.1 h with h | h
    · simp at h
    · obtain ⟨k, r', hk⟩ := keybit_calls_request _ _ _ _ _ h
      cases hk
  · simp at h

theorem mem_declare_calls (env : Env) (fd : Int) (n : Nat) (k : Nat) (hk : k ∈ enabled_keys) :
    ∃ r, Call.ioctl fd .UI_SET_KEYBIT k r ∈ declare_calls env fd n := by
  obtain ⟨r, hr⟩ := mem_keybit_calls env fd (n + 2) enabled_keys k hk
  exact ⟨r, by simp [declare_calls, hr]⟩

/-- If `UI_DEV_CREATE` is call number `i` of a run that starts with
`declare_calls`, every enabled key has its `UI_SET_KEYBIT` call among the first
`i` calls. -/
theorem keybit_before_create_aux (env : Env) (fd0 : Int) (n : Nat) (rest : List Call)
    (i : Nat) (fd : Int) (a : Nat) (r : Int)
    (hi : (declare_calls env fd0 n ++ rest)[i]? = some (Call.ioctl fd .UI_DEV_CREATE a r))
    (hrest : ∀ c ∈ rest, ∀ fd a r, c = Call.ioctl fd .UI_DEV_CREATE a r → fd = fd0)
    (k : Nat) (hk : k ∈ enabled_keys) :
    ∃ r', Call.ioctl fd .UI_SET_KEYBIT k r' ∈ (declare_calls env fd0 n ++ rest).take i := by
  have hge : (declare_calls env fd0 n).length ≤ i := by
    by_contra hlt
    rw [List.getElem?_append_left (by omega)] at hi
    exact create_not_mem_declare_calls env fd0 n fd a r (List.getElem?_mem hi)
  have hfd : fd = fd0 := by
    rw [List.getElem?_append_right hge] at hi
    exact hrest _ (List.getElem?_mem hi) fd a r rfl
  subst hfd
  obtain ⟨r', hr'⟩ := mem_declare_calls env fd n k hk
  refine ⟨r', ?_⟩
  rw [List.take_append_eq_append_take, List.take_of_length_le hge]
  exact List.mem_append_left _ hr'

/-- Claim C16.  The capability set declared by `init_uinput` is complete:
every key code of the unshifted and of the shifted table (so every key code
that `uinput_type_text` passes to `type_key`), `KEY_LEFTSHIFT` and
`KEY_RIGHTSHIFT` are among the keys of the `UI_SET_KEYBIT` calls, and in every
run of `init_uinput` that issues `UI_DEV_CREATE`, the `UI_SET_KEYBIT` call of
each of these keys is issued before it, on the same descriptor. -/
theorem enabled_keys_complete :
    (∀ e ∈ keycode_map, e.2 ∈ enabled_keys) ∧
    (∀ e ∈ shifted_keycode_map, e.2 ∈ enabled_keys) ∧
    (∀ c r, resolve c = some r → r.1 ∈ enabled_keys) ∧
    KEY_LEFTSHIFT ∈ enabled_keys ∧ KEY_RIGHTSHIFT ∈ enabled_keys ∧
    (∀ (env : Env) (s : State) (i : Nat) (fd : Int) (a : Nat) (r : Int),
      (calls_since s (init_uinput env s).2)[i]? = some (Call.ioctl fd .UI_DEV_CREATE a r) →
      ∀ k ∈ enabled_keys,
        ∃ r', Call.ioctl fd .UI_SET_KEYBIT k r' ∈ (calls_since s (init_uinput env s).2).take i) := by
  have h1 : ∀ e ∈ keycode_map, e.2 ∈ enabled_keys := by decide
  have h2 : ∀ e ∈ shifted_keycode_map, e.2 ∈ enabled_keys := by decide
  refine ⟨h1, h2, ?_, by decide, by decide, ?_⟩
  · intro c r hr
    unfold resolve at hr
    cases hk : keycode_map.lookup c with
    | some k =>
      simp only [hk, Option.some.injEq] at hr
      subst hr
      exact h1 _ (mem_of_lookup_eq_some _ _ _ hk)
    | none =>
      cases hs : shifted_keycode_map.lookup c with
      | some k =>
        simp only [hk, hs, Option.some.injEq] at hr
        subst hr
        exact h2 _ (mem_of_lookup_eq_some _ _ _ hs)
      | none => simp [hk, hs] at hr
  · intro env s i fd a r hi k hk
    cases h : s.g_uinput_initialized with
    | true =>
      rw [init_uinput_of_initialized env s h] at hi
      simp [calls_since] at hi
    | false =>
      rw [init_uinput_eq env s h] at hi ⊢
      split_ifs at hi ⊢ with h0 h1 h2 h3 h4
      · simp only [calls_since, List.drop_left] at hi
        have := List.getElem?_mem hi
        simp at this
      · simp only [calls_since, List.drop_left] at hi
        have := List.getElem?_mem hi
        simp at this
      · simp only [calls_since, List.drop_left] at hi
        have := List.getElem?_mem hi
        simp at this
      · simp only [calls_since, List.append_assoc, List.drop_left] at hi ⊢
        exact keybit_before_create_aux env _ _ _ i fd a r hi (by simp) k hk
      · simp only [calls_since, List.append_assoc, List.drop_left] at hi ⊢
        refine keybit_before_create_aux env _ _ _ i fd a r hi ?_ k hk
        intro c hc fd a r hcr
        subst hcr
        simp at hc
        exact hc.1
      · simp only [calls_since, List.append_assoc, List.drop_left] at hi ⊢
        refine keybit_before_create_aux env _ _ _ i fd a r hi ?_ k hk
        intro c hc fd a r hcr
        subst hcr
        simp at hc
        exact hc.1

theorem enabled_keys_complete_witness :
    (calls_since State.init (init_uinput env_all_ok State.init).2)[56]? =
      some (Call.ioctl 3 .UI_DEV_CREATE 0 0) ∧
    KEY_LEFTSHIFT ∈ enabled_keys ∧
    ∃ r', Call.ioctl 3 .UI_SET_KEYBIT KEY_LEFTSHIFT r' ∈
      (calls_since State.init (init_uinput env_all_ok State.init).2).take 56 :=
  ⟨by decide, by decide,
    enabled_keys_complete.2.2.2.2.2 env_all_ok State.init 56 3 0 0 (by decide) KEY_LEFTSHIFT
      (by decide)⟩

/-! ## Termination and bounds of the typing loop -/

theorem decode_utf8_traced_fst (text : List Byte) (pos : Nat) :
    (decode_utf8_traced text pos).1 = decode_utf8 text pos := by
  unfold decode_utf8_traced decode_utf8
  simp only []
  split_ifs <;> rfl

theorem decode_utf8_reads_lt (text : List Byte) (pos : Nat) (hpos : pos < text.length) :
    ∀ j ∈ decode_utf8_reads text pos, j < text.length := by
  unfold decode_utf8_reads decode_utf8_traced
  simp only []
  split_ifs with h1 h2 h3 h4 <;> intro j hj <;> simp at hj <;> omega

theorem decode_utf8_bytes_bounds (text : List Byte) (pos : Nat) (hpos : pos < text.length) :
    1 ≤ (decode_utf8 text pos).2 ∧ (decode_utf8 text pos).2 ≤ 4 ∧
      pos + (decode_utf8 text pos).2 ≤ text.length := by
  unfold decode_utf8
  simp only []
  split_ifs with h1 h2 h3 h4 <;> simp <;> omega

theorem type_loop_eq_foldl (env : Env) (text : List Byte) (fuel i : Nat) (s : State)
    (hfuel : text.length - i ≤ fuel) :
    type_loop env text fuel i s =
      some ((offsets_from text fuel i).foldl (fun s p => (type_step env text p s).2) s) := by
  induction fuel generalizing i s with
  | zero =>
    have hi : ¬ i < text.length := by omega
    simp [type_loop, hi, offsets_from]
  | succ fuel ih =>
    rw [type_loop]
    by_cases hi : i < text.length
    · have hb := decode_utf8_bytes_pos text i
      simp only [hi, if_true, offsets_from, List.foldl_cons]
      exact ih (i + (decode_utf8 text i).2) (type_step env text i s).2 (by omega)
    · simp [hi, offsets_from]

theorem codepoints_from_eq_map (text : List Byte) (fuel i : Nat) :
    codepoints_from text fuel i = (offsets_from text fuel i).map fun p => (decode_utf8 text p).1 := by
  induction fuel generalizing i with
  | zero => rfl
  | succ fuel ih =>
    simp only [codepoints_from, offsets_from]
    split_ifs
    · simp [ih]
    · rfl

theorem offsets_from_length_le (text : List Byte) (fuel i : Nat) :
    (offsets_from text fuel i).length ≤ fuel := by
  induction fuel generalizing i with
  | zero => simp [offsets_from]
  | succ fuel ih =>
    simp only [offsets_from]
    split_ifs
    · simp only [List.length_cons]
      have := ih (i + (decode_utf8 text i).2)
      omega
    · simp

theorem offsets_from_lt (text : List Byte) (fuel i : Nat) :
    ∀ p ∈ offsets_from text fuel i, p < text.length := by
  induction fuel generalizing i with
  | zero => simp [offsets_from]
  | succ fuel ih =>
    simp only [offsets_from]
    split_ifs with hi
    · intro p hp
      rcases List.mem_cons.1 hp with rfl | hp
      · exact hi
      · exact ih _ p hp
    · simp

/-- Claim C15.  For every byte string `text` and whatever the writes do, the
typing loop ends within `text.length` iterations: it is the iteration of the
loop body over the offsets `offsets text`, of which there are at most
`text.length`, and `uinput_type_text` returns.  Every `decode_utf8` call of
the loop is made at an offset `pos < text.length`, reads only indices below
`text.length`, and returns a byte count `n` with `1 ≤ n ≤ 4` and
`pos + n ≤ text.length`. -/
theorem type_loop_terminates_in_bounds (text : List Byte) :
    (∀ env s, type_loop env text text.length 0 s =
      some ((offsets text).foldl (fun s p => (type_step env text p s).2) s)) ∧
    (∀ env s, ∃ r t, uinput_type_text env text s = some (r, t)) ∧
    (offsets text).length ≤ text.length ∧
    (∀ pos ∈ offsets text, pos < text.length ∧
      (∀ j ∈ decode_utf8_reads text pos, j < text.length) ∧
      1 ≤ (decode_utf8 text pos).2 ∧ (decode_utf8 text pos).2 ≤ 4 ∧
      pos + (decode_utf8 text pos).2 ≤ text.length) := by
  refine ⟨fun env s => type_loop_eq_foldl env text text.length 0 s (by omega), fun env s => ?_,
    offsets_from_length_le text text.length 0, fun pos hpos => ?_⟩
  · obtain ⟨r, t, h, -⟩ := uinput_type_text_globals env text s
    exact ⟨r, t, h⟩
  · have hlt := offsets_from_lt text text.length 0 pos hpos
    exact ⟨hlt, decode_utf8_reads_lt text pos hlt, decode_utf8_bytes_bounds text pos hlt⟩

theorem type_loop_terminates_in_bounds_witness :
    offsets text_cafe_accented = [0, 1, 2, 3] ∧
    decode_utf8_reads text_cafe_accented 3 = [3, 4] ∧
    (3 < text_cafe_accented.length ∧
      (∀ j ∈ decode_utf8_reads text_cafe_accented 3, j < text_cafe_accented.length) ∧
      1 ≤ (decode_utf8 text_cafe_accented 3).2 ∧ (decode_utf8 text_cafe_accented 3).2 ≤ 4 ∧
      3 + (decode_utf8 text_cafe_accented 3).2 ≤ text_cafe_accented.length) :=
  ⟨by decide, by decide,
    (type_loop_terminates_in_bounds text_cafe_accented).2.2.2 3 (by decide)⟩

/-! ## Warnings for characters without a key -/

theorem warnings_append (t u : List Call) : warnings (t ++ u) = warnings t ++ warnings u := by
  simp [warnings]

theorem warnings_write_calls (env : Env) (fd : Int) (n : Nat) (evs : List input_event) :
    warnings (write_calls env fd n evs) = [] := by
  induction evs generalizing n with
  | nil => rfl
  | cons ev evs ih =>
    have := ih (n + 1)
    simp only [warnings] at this
    cases h : env.write_ok n <;> simp [write_calls, warnings, h, this]

theorem type_key_trace (env : Env) (k : Nat) (shift : Bool) (s : State) :
    (type_key env k shift s).2.trace =
      s.trace ++ write_calls env s.g_uinput_fd (nwrites s.trace) (key_sequence k shift) := by
  rw [type_key_eq_send_all, send_all_eq]

theorem resolve_eq_none (c : Nat) (h : resolve c = none) :
    keycode_map.lookup c = none ∧ shifted_keycode_map.lookup c = none := by
  unfold resolve at h
  cases hk : keycode_map.lookup c with
  | some k => simp [hk] at h
  | none =>
    cases hs : shifted_keycode_map.lookup c with
    | some k => simp [hk, hs] at h
    | none => exact ⟨rfl, rfl⟩

/-- A codepoint without a key: the iteration writes nothing, and prints the
warning exactly when the codepoint is not 0. -/
theorem type_step_unresolved (env : Env) (text : List Byte) (i : Nat) (s : State)
    (h : resolve (strip_accent_unicode (decode_utf8 text i).1) = none) :
    (type_step env text i s).2 =
      if (decode_utf8 text i).1 ≠ 0 then
        fprintf (.cannot_type (c_str (substr text i (decode_utf8 text i).2))
            (decode_utf8 text i).1) s
      else s := by
  obtain ⟨h1, h2⟩ := resolve_eq_none _ h
  unfold type_step
  simp only [h1, h2]
  split_ifs <;> simp_all

/-- Every warning an iteration prints is for the codepoint decoded at its
offset, which is not 0. -/
theorem type_step_warnings (env : Env) (text : List Byte) (i : Nat) (s : State) :
    ∃ add, (type_step env text i s).2.trace = s.trace ++ add ∧
      ∀ w ∈ warnings add,
        w = (c_str (substr text i (decode_utf8 text i).2), (decode_utf8 text i).1) ∧ w.2 ≠ 0 := by
  unfold type_step
  simp only []
  split_ifs with h0 hw hw
  · -- a key may have been typed and the warning is printed
    split
    · rename_i k hk
      refine ⟨write_calls env s.g_uinput_fd (nwrites s.trace) (key_sequence k false) ++
        [.fprintf (.cannot_type (c_str (substr text i (decode_utf8 text i).2))
            (decode_utf8 text i).1)],
        by simp [fprintf, State.log, type_key_trace], ?_⟩
      intro w hm
      simp only [warnings_append, warnings_write_calls, List.nil_append] at hm
      simp only [warnings, List.filterMap_cons, List.filterMap_nil, List.mem_singleton] at hm
      subst hm
      exact ⟨rfl, hw.2⟩
    · split
      · rename_i k hk
        refine ⟨write_calls env s.g_uinput_fd (nwrites s.trace) (key_sequence k true) ++
          [.fprintf (.cannot_type (c_str (substr text i (decode_utf8 text i).2))
              (decode_utf8 text i).1)],
          by simp [fprintf, State.log, type_key_trace], ?_⟩
        intro w hm
        simp only [warnings_append, warnings_write_calls, List.nil_append] at hm
        simp only [warnings, List.filterMap_cons, List.filterMap_nil, List.mem_singleton] at hm
        subst hm
        exact ⟨rfl, hw.2⟩
      · refine ⟨[.fprintf
          (.cannot_type (c_str (substr text i (decode_utf8 text i).2)) (decode_utf8 text i).1)],
          by simp [fprintf, State.log], ?_⟩
        intro w hm
        simp only [warnings, List.filterMap_cons, List.filterMap_nil, List.mem_singleton] at hm
        subst hm
        exact ⟨rfl, hw.2⟩
  · split
    · rename_i k hk
      exact ⟨write_calls env s.g_uinput_fd (nwrites s.trace) (key_sequence k false),
        by simp [type_key_trace], by simp [warnings_write_calls]⟩
    · split
      · rename_i k hk
        exact ⟨write_calls env s.g_uinput_fd (nwrites s.trace) (key_sequence k true),
          by simp [type_key_trace], by simp [warnings_write_calls]⟩
      · exact ⟨[], by simp, by simp [warnings]⟩
  · refine ⟨[.fprintf
      (.cannot_type (c_str (substr text i (decode_utf8 text i).2)) (decode_utf8 text i).1)],
      by simp [fprintf, State.log], ?_⟩
    intro w hm
    simp only [warnings, List.filterMap_cons, List.filterMap_nil, List.mem_singleton] at hm
    subst hm
    exact ⟨rfl, hw.2⟩
  · exact ⟨[], by simp, by simp [warnings]⟩

/-- Iterating the loop body over the offsets `ps`: every warning printed is
for a non-zero codepoint, and every offset of `ps` whose codepoint is not 0
and has no key gets its warning. -/
theorem foldl_type_step_warnings (env : Env) (text : List Byte) (ps : List Nat) (s : State) :
    ∃ add, (ps.foldl (fun s p => (type_step env text p s).2) s).trace = s.trace ++ add ∧
      (∀ w ∈ warnings add, w.2 ≠ 0) ∧
      (∀ p ∈ ps, resolve (strip_accent_unicode (decode_utf8 text p).1) = none →
        (decode_utf8 text p).1 ≠ 0 →
        (c_str (substr text p (decode_utf8 text p).2), (decode_utf8 text p).1) ∈ warnings add) := by
  induction ps generalizing s with
  | nil => exact ⟨[], by simp, by simp [warnings], by simp⟩
  | cons p ps ih =>
    obtain ⟨add1, h1, hw1⟩ := type_step_warnings env text p s
    obtain ⟨add2, h2, hw2, hall2⟩ := ih (type_step env text p s).2
    refine ⟨add1 ++ add2, ?_, ?_, ?_⟩
    · rw [List.foldl_cons, h2, h1, List.append_assoc]
    · intro w hw
      rw [warnings_append] at hw
      rcases List.mem_append.1 hw with hw | hw
      · exact (hw1 w hw).2
      · exact hw2 w hw
    · intro q hq hres hne
      rw [warnings_append]
      rcases List.mem_cons.1 hq with rfl | hq
      · refine List.mem_append_left _ ?_
        have hstep := type_step_unresolved env text q s hres
        rw [if_pos hne] at hstep
        have htr : (type_step env text q s).2.trace = s.trace ++
            [.fprintf (.cannot_type (c_str (substr text q (decode_utf8 text q).2))
              (decode_utf8 text q).1)] := by
          rw [hstep]; rfl
        have := List.append_cancel_left (h1.symm.trans htr)
        rw [this]
        simp [warnings]
      · exact List.mem_append_right _ (hall2 q hq hres hne)

/-- A decoded codepoint other than 0 starts at a byte other than NUL. -/
theorem byteAt_ne_zero_of_codepoint (text : List Byte) (pos : Nat)
    (h : (decode_utf8 text pos).1 ≠ 0) : byteAt text pos ≠ 0 := by
  intro h0
  apply h
  unfold decode_utf8
  simp [h0]

/-- The bytes printed for a character of non-zero codepoint are not empty:
they hold at least its lead byte. -/
theorem c_str_substr_ne_nil (text : List Byte) (pos : Nat) (hpos : pos < text.length)
    (h : (decode_utf8 text pos).1 ≠ 0) :
    c_str (substr text pos (decode_utf8 text pos).2) ≠ [] := by
  have hb := decode_utf8_bytes_pos text pos
  have h0 := byteAt_ne_zero_of_codepoint text pos h
  obtain ⟨n, hn⟩ : ∃ n, (decode_utf8 text pos).2 = n + 1 := ⟨_, (Nat.sub_add_cancel hb).symm⟩
  have hbyte : text[pos] ≠ 0 := by
    intro hz
    apply h0
    simp [byteAt, List.getD, List.getElem?_eq_getElem hpos, hz]
  rw [hn, substr, List.drop_eq_getElem_cons hpos, List.take_succ_cons, c_str,
    List.takeWhile_cons]
  simp [hbyte]


/-- Claim C14 as stated fails for codepoint 0, and without the backend.  The
NUL character, and the codepoint 0 that `decode_utf8` reports for a stray
continuation byte, have no key in either table, and `uinput_type_text` prints
no warning for them.  When the backend is not available the loop is not
entered: the character U+20AC of the text "a€", which has no key, gets no
warning either. -/
theorem uinput_type_text_drops_codepoint_zero :
    offsets text_nul = [0] ∧ decode_utf8 text_nul 0 = (0, 1) ∧
    offsets text_stray = [0] ∧ decode_utf8 text_stray 0 = (0, 1) ∧
    resolve (strip_accent_unicode 0) = none ∧
    (∃ t, uinput_type_text env_all_ok text_nul State.init = some (true, t) ∧
      warnings t.trace = []) ∧
    (∃ t, uinput_type_text env_all_ok text_stray State.init = some (true, t) ∧
      warnings t.trace = []) ∧
    decode_utf8 text_a_euro 1 = (0x20AC, 3) ∧
    resolve (strip_accent_unicode 0x20AC) = none ∧
    (∃ t, uinput_type_text env_open_fails text_a_euro State.init = some (false, t) ∧
      warnings t.trace = []) :=
  ⟨by decide, by decide, by decide, by decide, by decide,
    ⟨((uinput_type_text env_all_ok text_nul State.init).getD (false, State.init)).2,
      by decide, by decide⟩,
    ⟨((uinput_type_text env_all_ok text_stray State.init).getD (false, State.init)).2,
      by decide, by decide⟩,
    by decide, by decide,
    ⟨((uinput_type_text env_open_fails text_a_euro State.init).getD (false, State.init)).2,
      by decide, by decide⟩⟩

/-- Claim C14, amended.  When the backend is available, whatever the writes
do, `uinput_type_text` prints, for every decoded character whose codepoint is
not 0 and which has no key in either layout table, a warning naming it by its
codepoint and by its bytes as `%s` prints them, that is up to the first NUL
byte among them, which is at least its lead byte; the warnings it prints are
all for non-zero codepoints, so a codepoint 0 is skipped without a warning.
When the backend is not available, `uinput_type_text` returns `false` after
the not-available message and prints no warning. -/
theorem uinput_type_text_warns_unresolved (env : Env) (text : List Byte) (s : State) :
    ((uinput_available env s).1 = true →
      ∃ t new, uinput_type_text env text s = some (true, t) ∧
        t.trace = (uinput_available env s).2.trace ++ new ∧
        (∀ pos ∈ offsets text,
          resolve (strip_accent_unicode (decode_utf8 text pos).1) = none →
          (decode_utf8 text pos).1 ≠ 0 →
          (c_str (substr text pos (decode_utf8 text pos).2), (decode_utf8 text pos).1)
              ∈ warnings new ∧
            c_str (substr text pos (decode_utf8 text pos).2) ≠ []) ∧
        (∀ w ∈ warnings new, w.2 ≠ 0)) ∧
    ((uinput_available env s).1 = false →
      uinput_type_text env text s =
        some (false, fprintf (.not_available (c_str text)) (uinput_available env s).2) ∧
      warnings [Call.fprintf (.not_available (c_str text))] = []) := by
  constructor
  · intro havail
    obtain ⟨add, htr, hnz, hall⟩ := foldl_type_step_warnings env text (offsets text)
      (fprintf (.typing_text (c_str text)) (uinput_available env s).2)
    refine ⟨fprintf .typing_complete
      ((offsets text).foldl (fun s p => (type_step env text p s).2)
        (fprintf (.typing_text (c_str text)) (uinput_available env s).2)),
      [.fprintf (.typing_text (c_str text))] ++ add ++ [.fprintf .typing_complete],
      ?_, ?_, ?_, ?_⟩
    · unfold uinput_type_text
      simp only [havail, Bool.not_true, Bool.false_eq_true, if_false]
      rw [type_loop_eq_foldl env text text.length 0 _ (by omega)]
      rfl
    · simp [fprintf, State.log] at htr ⊢
      rw [htr]
      simp
    · intro pos hpos hres hne
      refine ⟨?_, c_str_substr_ne_nil text pos (offsets_from_lt text text.length 0 pos hpos) hne⟩
      simp only [warnings_append]
      exact List.mem_append_left _ (List.mem_append_right _ (hall pos hpos hres hne))
    · intro w hw
      simp only [warnings_append] at hw
      rcases List.mem_append.1 hw with hw | hw
      · rcases List.mem_append.1 hw with hw | hw
        · simp [warnings] at hw
        · exact hnz w hw
      · simp [warnings] at hw
  · intro hun
    refine ⟨?_, rfl⟩
    unfold uinput_type_text
    simp [hun]

theorem uinput_type_text_warns_unresolved_witness :
    ((uinput_available env_all_ok State.init).1 = true ∧
      1 ∈ offsets text_a_euro ∧ decode_utf8 text_a_euro 1 = (0x20AC, 3) ∧
      resolve (strip_accent_unicode 0x20AC) = none ∧
      ∃ t, uinput_type_text env_all_ok text_a_euro State.init = some (true, t) ∧
        ([0xE2, 0x82, 0xAC], 0x20AC) ∈ warnings t.trace) ∧
    (0 ∈ offsets text_nul_inside ∧ decode_utf8 text_nul_inside 0 = (0x2001, 3) ∧
      resolve (strip_accent_unicode 0x2001) = none ∧
      ∃ t, uinput_type_text env_all_ok text_nul_inside State.init = some (true, t) ∧
        ([0xE2], 0x2001) ∈ warnings t.trace) ∧
    ((uinput_available env_open_fails State.init).1 = false ∧
      uinput_type_text env_open_fails text_a_euro State.init =
        some (false, fprintf (.not_available (c_str text_a_euro))
          (uinput_available env_open_fails State.init).2)) :=
  ⟨⟨by decide, by decide, by decide, by decide,
      let ⟨t, new, ht, htr, hall, _⟩ :=
        (uinput_type_text_warns_unresolved env_all_ok text_a_euro State.init).1 (by decide)
      ⟨t, ht, by
        rw [htr, warnings_append]
        exact List.mem_append_right _ (hall 1 (by decide) (by decide) (by decide)).1⟩⟩,
    ⟨by decide, by decide, by decide,
      let ⟨t, new, ht, htr, hall, _⟩ :=
        (uinput_type_text_warns_unresolved env_all_ok text_nul_inside State.init).1
          (by decide)
      ⟨t, ht, by
        rw [htr, warnings_append]
        exact List.mem_append_right _ (hall 0 (by decide) (by decide) (by decide)).1⟩⟩,
    ⟨by decide,
      ((uinput_type_text_warns_unresolved env_open_fails text_a_euro State.init).2
        (by decide)).1⟩⟩

end Uinput

/-! ## The libei backend -/

namespace Libei

open Uinput

/-- After any call of `libei_available` the backend is marked initialised and
`g_keyboard_device` is as before: no statement assigns it. -/
theorem libei_available_post (env : Env) (s : State) :
    (libei_available env s).2.g_libei_initialized = true ∧
      (libei_available env s).2.g_keyboard_device = s.g_keyboard_device := by
  unfold libei_available
  cases h : s.g_libei_initialized with
  | true => simp [h]
  | false =>
    simp only [Bool.false_eq_true, if_false]
    split
    · exact ⟨rfl, rfl⟩
    · split_ifs <;> exact ⟨rfl, rfl⟩

theorem libei_available_of_initialized (env : Env) (s : State)
    (h : s.g_libei_initialized = true) :
    libei_available env s =
      (decide (s.g_ei_context ≠ 0) && decide (s.g_keyboard_device ≠ 0), s) := by
  simp [libei_available, h]

/-- Once `libei_available` has run, every later call returns `false` without
any call to the system or to libei, as long as `g_keyboard_device` is
`nullptr` (its value at program start, which nothing changes). -/
theorem libei_available_later (env env2 : Env) (s : State) (h : s.g_keyboard_device = 0) :
    libei_available env2 (libei_available env s).2 = (false, (libei_available env s).2) := by
  obtain ⟨h1, h2⟩ := libei_available_post env s
  rw [libei_available_of_initialized env2 _ h1, h2, h]
  simp

/-- Claim C12 fails on the code.  From program start, when `XDG_RUNTIME_DIR`
is set, the socket exists, the context is created and the socket is attached,
the first call of `libei_available` returns `true` and every later call
returns `false`: the cached answer also requires `g_keyboard_device`, which is
never set.  No later call re-attempts the connection, and when a step of the
first call fails (here: `XDG_RUNTIME_DIR` unset) the later calls return the
same `false`. -/
theorem libei_available_true_then_false :
    (libei_available env_all_ok State.init).1 = true ∧
    libei_available env_all_ok (libei_available env_all_ok State.init).2 =
      (false, (libei_available env_all_ok State.init).2) ∧
    (libei_available env_all_ok State.init).2.g_ei_context = 1 ∧
    (libei_available env_all_ok State.init).2.g_keyboard_device = 0 ∧
    (libei_available env_no_runtime_dir State.init).1 = false ∧
    libei_available env_no_runtime_dir (libei_available env_no_runtime_dir State.init).2 =
      (false, (libei_available env_no_runtime_dir State.init).2) :=
  ⟨by decide, libei_available_later env_all_ok env_all_ok State.init rfl, by decide, by decide,
    by decide, libei_available_later env_no_runtime_dir env_no_runtime_dir State.init rfl⟩

set_option maxRecDepth 100000 in
/-- Claim C18 fails on the code.  The libei tables compute the key code of a
letter as `KEY_A` plus its position in the alphabet and that of a digit as
`KEY_0` plus its value, but the Linux key codes follow the keyboard rows: the
libei tables send `b` to `KEY_S` and `1` to `KEY_MINUS`, where the uinput
tables send them to `KEY_B` and `KEY_1`.  The two backends resolve an ASCII
character to the same key exactly when it is not a letter other than `a`, `A`
and not a digit other than `0`; the shift flags agree everywhere. -/
theorem libei_tables_disagree_with_uinput :
    Libei.resolve 'b'.toNat = some (KEY_S, false) ∧
    Uinput.resolve 'b'.toNat = some (KEY_B, false) ∧
    Libei.resolve '1'.toNat = some (KEY_MINUS, false) ∧
    Uinput.resolve '1'.toNat = some (KEY_1, false) ∧
    (∀ c : Nat, c < 128 →
      (Libei.resolve c = Uinput.resolve c ↔
        ¬ ('b'.toNat ≤ c ∧ c ≤ 'z'.toNat) ∧ ¬ ('B'.toNat ≤ c ∧ c ≤ 'Z'.toNat) ∧
          ¬ ('1'.toNat ≤ c ∧ c ≤ '9'.toNat))) ∧
    (∀ c : Nat, c < 128 →
      (Libei.resolve c).map Prod.snd = (Uinput.resolve c).map Prod.snd) := by
  decide

end Libei
